import Mathlib

/-!
Shallow embedding of the VoxCPM TTS API core (src/api) and proofs of the
spec claims about it.  Strings are modelled as lists of unicode characters
(Python `len`/slicing count code points), time as rationals, audio sample
arrays as lists of rationals.
-/

namespace VoxCPM

/-- Characters removed by Python `str.strip()` / counted by `str.isspace()`
in the ASCII range (the only whitespace this code path can see). -/
def isWS (c : Char) : Bool :=
  c = ' ' || c = '\n' || c = '\t' || c = '\r' || c = '\x0b' || c = '\x0c'

/-- Python strings, as lists of code points. -/
abbrev Str := List Char

/-- Python `str.lstrip()`. -/
def stripLeft (s : Str) : Str := s.dropWhile isWS

/-- Python `str.rstrip()`. -/
def stripRight (s : Str) : Str := (s.reverse.dropWhile isWS).reverse

/-- Python `str.strip()`. -/
def strip (s : Str) : Str := stripRight (stripLeft s)

/-- Erase all whitespace; the "modulo whitespace" projection used to compare
segment concatenations with the input. -/
def removeWS (s : Str) : Str := s.filter (fun c => !isWS c)

/-- `re.sub(d+, d, s)`: collapse every run of the character `d` to a single
occurrence (keeps the last character of each run). -/
def collapseRuns (d : Char) : Str → Str
  | [] => []
  | c :: cs =>
    if c = d ∧ cs.head? = some d then collapseRuns d cs
    else c :: collapseRuns d cs

/-- `TextSplitter._normalize_text`: collapse newline runs, collapse space
runs, strip. -/
def normalizeText (s : Str) : Str := strip (collapseRuns ' ' (collapseRuns '\n' s))

/-- `TextSplitter.PRIMARY_DELIMITERS = [。！？；\n]`. -/
def isPrimaryDelim (c : Char) : Bool :=
  c = '。' || c = '！' || c = '？' || c = '；' || c = '\n'

/-- `TextSplitter.SECONDARY_DELIMITERS = [，、：:,;]`. -/
def isSecondaryDelim (c : Char) : Bool :=
  c = '，' || c = '、' || c = '：' || c = ':' || c = ',' || c = ';'

/-- Loop body of `TextSplitter._split_by_pattern`: walk the parts produced by
`re.split` with a capturing single-character delimiter class.  Since every
delimiter is one character, this is a character walk: delimiter characters
close the current chunk (kept only when its strip is non-empty, delimiter
attached), other characters accumulate. -/
def splitByPatternGo (isDelim : Char → Bool) (current : Str) : Str → List Str
  | [] => if strip current = [] then [] else [current]
  | c :: cs =>
    if isDelim c then
      if strip (current ++ [c]) = [] then splitByPatternGo isDelim [] cs
      else (current ++ [c]) :: splitByPatternGo isDelim [] cs
    else splitByPatternGo isDelim (current ++ [c]) cs

/-- `TextSplitter._split_by_pattern`. -/
def splitByPattern (isDelim : Char → Bool) (text : Str) : List Str :=
  splitByPatternGo isDelim [] text

/-- `remaining.rfind(' ', a, b)`: the largest index `i` with `a ≤ i < b` and
`remaining[i] = ' '`, if any (recursion is on the exclusive upper bound `b`). -/
def rfindSpace (s : Str) (a : Nat) : Nat → Option Nat
  | 0 => none
  | b + 1 => if a ≤ b ∧ s.get? b = some ' ' then some b else rfindSpace s a b

/-- One evaluation of the `split_point` selection in `_hard_split`, with
`search_start = max(0, max_length - 50)` (truncated subtraction):
`split_point = space_pos if space_pos > search_start else max_length`. -/
def hardSplitPoint (m : Nat) (remaining : Str) : Nat :=
  match rfindSpace remaining (m - 50) m with
  | some p => if m - 50 < p then p else m
  | none => m

/-- The `while len(remaining) > max_length` loop of `TextSplitter._hard_split`,
with explicit fuel (the loop consumes at least one character per iteration
whenever `0 < m`, so `remaining.length` is always enough fuel).  The loop
locals are inlined: `segment = remaining[:split_point].strip()` and the new
`remaining = remaining[split_point:].strip()`. -/
def hardSplitGo (m : Nat) : Nat → Str → List Str
  | 0, remaining => if remaining = [] then [] else [remaining]
  | fuel + 1, remaining =>
    if m < remaining.length then
      if strip (remaining.take (hardSplitPoint m remaining)) = [] then
        hardSplitGo m fuel (strip (remaining.drop (hardSplitPoint m remaining)))
      else
        strip (remaining.take (hardSplitPoint m remaining)) ::
          hardSplitGo m fuel (strip (remaining.drop (hardSplitPoint m remaining)))
    else if remaining = [] then [] else [remaining]

/-- `TextSplitter._hard_split`. -/
def hardSplit (m : Nat) (text : Str) : List Str := hardSplitGo m text.length text

/-- Inner/outer merging loop of `TextSplitter._merge_short_segments`:
`current` absorbs following segments while it is shorter than `minLen` and
the merge still fits in `m`. -/
def mergeAux (m minLen : Nat) (current : Str) : List Str → List Str
  | [] => [current]
  | next :: rest =>
    if current.length < minLen ∧ current.length + next.length ≤ m then
      mergeAux m minLen (current ++ next) rest
    else current :: mergeAux m minLen next rest

/-- `TextSplitter._merge_short_segments` (the source early-returns lists of
length at most one unchanged). -/
def mergeShortSegments (m minLen : Nat) (segments : List Str) : List Str :=
  match segments with
  | [] => []
  | [s] => [s]
  | s :: rest => mergeAux m minLen s rest

namespace TextSplitter

/-- The two delimiter passes of `TextSplitter.split` (the `result` list built
by its main loop): primary pieces are kept when they fit, otherwise re-split
on secondary delimiters, and still-overlong pieces are hard-split. -/
def splitCore (m : Nat) (t : Str) : List Str :=
  (splitByPattern isPrimaryDelim t).flatMap (fun seg =>
    if seg.length ≤ m then [seg]
    else
      (splitByPattern isSecondaryDelim seg).flatMap (fun sub =>
        if sub.length ≤ m then [sub] else hardSplit m sub))

/-- `TextSplitter.split(text)` with `max_length = m`: empty/whitespace-only
input gives `[]`; normalized input that fits is returned whole; otherwise
delimiter passes, then `[s.strip() for s in result if s.strip()]`, then
short-segment merging with `min_length = 20`. -/
def split (m : Nat) (text : Str) : List Str :=
  if strip text = [] then []
  else if (normalizeText text).length ≤ m then [normalizeText text]
  else
    mergeShortSegments m 20
      (((splitCore m (normalizeText text)).map strip).filter (fun s => !s.isEmpty))

end TextSplitter

/-- `smart_split(text, max_length)` (both branches run `TextSplitter.split`
with the given maximum). -/
def smartSplit (m : Nat) (text : Str) : List Str := TextSplitter.split m text

/-!
### TTS service (src/api/services/tts_service.py) and router (src/api/routers/tts.py)

Floats are modelled as rationals, audio sample arrays as lists of rationals.
The external model (`self._model.generate(...)`) and the ASR capability are
oracles supplied in an environment; the worker pool dispatch is awaited
immediately by the orchestrator, so a request's behaviour is the sequential
composition of the per-segment calls.  Each service run also produces the
trace of gateway interactions (the ensure-loaded entry and every model
inference call) for the zero-calls / parameter-passing claims.
-/

/-- Audio samples (a numpy float array). -/
abbrev Wav := List ℚ

/-- The settings fields used by the generation path (src/api/config.py). -/
structure TTSSettings where
  defaultCfgValue : ℚ
  defaultInferenceTimesteps : ℕ
  splitMaxLength : ℕ
  maxTextLength : ℕ

/-- A stored voice profile as the service consumes it: reference audio path
and its transcript. -/
structure VoiceProfile where
  audioPath : Str
  promptText : Str

/-- `TTSGenerateRequest` fields consumed by the service layer. -/
structure GenRequest where
  text : Str
  voiceUuid : Option Str
  tempAudioBase64 : Option Str
  tempPromptText : Option Str
  cfgValue : Option ℚ
  inferenceTimesteps : Option ℕ
  normalize : Bool
  denoise : Bool

/-- Python truthiness of an `Optional[str]`: `None` and `""` are falsy. -/
def truthyStr : Option Str → Bool
  | none => false
  | some s => !s.isEmpty

/-- `cfg = cfg_value or settings.default_cfg_value`: Python `or` takes the
default when the supplied value is `None` or falsy (`0.0`). -/
def resolveCfg : Option ℚ → ℚ → ℚ
  | none, d => d
  | some v, d => if v = 0 then d else v

/-- `steps = inference_timesteps or settings.default_inference_timesteps`.` -/
def resolveSteps : Option ℕ → ℕ → ℕ
  | none, d => d
  | some v, d => if v = 0 then d else v

/-- One call to the external model's `generate`. -/
structure ModelCall where
  text : Str
  promptWavPath : Option Str
  promptText : Option Str
  cfgValue : ℚ
  inferenceTimesteps : ℕ
  normalize : Bool
  denoise : Bool
deriving DecidableEq

/-- An interaction with the inference gateway, as recorded in a trace. -/
inductive GatewayCall
  | ensureLoaded
  | infer (c : ModelCall)
deriving DecidableEq

/-- Failures surfaced by the service layer: a model-load exception raised by
`_ensure_model_loaded`, `ValueError` for a missing voice, a model exception
during a segment, and the `IndexError` the concatenation step raises on an
empty segment list. -/
inductive GenError
  | loadFailure (msg : Str)
  | voiceNotFound (id : Str)
  | inference (msg : Str)
  | emptyAudioList
deriving DecidableEq

/-- The environment of external collaborators of one service run.
`loadModel` is the outcome of `await self._ensure_model_loaded()` for this
run: the executor load may raise, and both `generate` and
`generate_streaming` await it before their `try` blocks. -/
structure Env where
  settings : TTSSettings
  voices : Str → Option VoiceProfile
  loadModel : Except Str Unit
  model : ModelCall → Except Str Wav
  asr : Str → Str
  sampleRate : ℚ

/-- The shared voice-resolution step of `generate` / `generate_streaming`:
stored voice id (missing id is a failure), else inline audio whose transcript
comes from the request or the ASR oracle, else no reference.  The decoded
temp-file path is represented by the inline payload itself. -/
def resolvePrompt (env : Env) (req : GenRequest) :
    Except GenError (Option Str × Option Str) :=
  if truthyStr req.voiceUuid then
    match env.voices (req.voiceUuid.getD []) with
    | none => .error (.voiceNotFound (req.voiceUuid.getD []))
    | some v => .ok (some v.audioPath, some v.promptText)
  else if truthyStr req.tempAudioBase64 then
    if truthyStr req.tempPromptText then
      .ok (some (req.tempAudioBase64.getD []), some (req.tempPromptText.getD []))
    else
      .ok (some (req.tempAudioBase64.getD []),
           some (env.asr (req.tempAudioBase64.getD [])))
  else .ok (none, none)

/-- The per-segment `model.generate` loop of `TTSService.generate`, returning
the inference calls issued and either the collected per-segment audio (in
order) or the first failure, which aborts the loop. -/
def runSegments (env : Env) (cfg : ℚ) (steps : ℕ) (pw pt : Option Str)
    (nrm dns : Bool) : List Str → List ModelCall × Except GenError (List Wav)
  | [] => ([], .ok [])
  | seg :: rest =>
    match env.model ⟨seg, pw, pt, cfg, steps, nrm, dns⟩ with
    | .error e => ([⟨seg, pw, pt, cfg, steps, nrm, dns⟩], .error (.inference e))
    | .ok wav =>
      match runSegments env cfg steps pw pt nrm dns rest with
      | (calls, .error e) => (⟨seg, pw, pt, cfg, steps, nrm, dns⟩ :: calls, .error e)
      | (calls, .ok wavs) => (⟨seg, pw, pt, cfg, steps, nrm, dns⟩ :: calls, .ok (wav :: wavs))

/-- `final_audio = np.concatenate(all_audio) if len(all_audio) > 1 else
all_audio[0]`; indexing an empty list raises. -/
def concatAudio : List Wav → Option Wav
  | [] => none
  | [w] => some w
  | w :: w2 :: ws => some (List.flatten (w :: w2 :: ws))

/-- Result of a successful batch generation. -/
structure GenResult where
  audio : Wav
  sampleRate : ℚ
  segments : List Str
deriving DecidableEq

namespace TTSService

/-- The tail of `TTSService.generate` after the reference voice has been
resolved to `(pw, pt)`: split the text, run every segment in order,
concatenate the per-segment audio. -/
def generateResolved (env : Env) (req : GenRequest) (pw pt : Option Str) :
    List GatewayCall × Except GenError GenResult :=
  match runSegments env (resolveCfg req.cfgValue env.settings.defaultCfgValue)
      (resolveSteps req.inferenceTimesteps env.settings.defaultInferenceTimesteps)
      pw pt req.normalize req.denoise
      (smartSplit env.settings.splitMaxLength req.text) with
  | (calls, .error e) => (.ensureLoaded :: calls.map .infer, .error e)
  | (calls, .ok wavs) =>
    match concatAudio wavs with
    | none => (.ensureLoaded :: calls.map .infer, .error .emptyAudioList)
    | some audio =>
      (.ensureLoaded :: calls.map .infer,
       .ok ⟨audio, env.sampleRate, smartSplit env.settings.splitMaxLength req.text⟩)

/-- `TTSService.generate`: `await self._ensure_model_loaded()` first (a load
exception propagates out of the coroutine, before the `try` block), then
resolve parameters and the reference voice, then the per-segment batch loop.
Returns the gateway trace alongside the outcome. -/
def generate (env : Env) (req : GenRequest) :
    List GatewayCall × Except GenError GenResult :=
  match env.loadModel with
  | .error m => ([.ensureLoaded], .error (.loadFailure m))
  | .ok _ =>
    match resolvePrompt env req with
    | .error e => ([.ensureLoaded], .error e)
    | .ok (pw, pt) => generateResolved env req pw pt

end TTSService

/-- `round(x, 3)` on the rational model of floats (ties, which Python
resolves to even, do not occur in any property proved here). -/
def round3 (q : ℚ) : ℚ := (round (q * 1000) : ℤ) / 1000

/-- `duration = len(wav) / self._sample_rate`. -/
def wavDuration (env : Env) (w : Wav) : ℚ := (w.length : ℚ) / env.sampleRate

/-- The tagged streaming events of `TTSService.generate_streaming`
(`audio_chunk` carries the segment audio in place of its WAV base64
encoding). -/
inductive StreamEvent
  | progress (segment total : ℕ)
  | audioChunk (segment : ℕ) (audio : Wav) (duration : ℚ)
  | done (totalDurationSeconds : ℚ) (totalSegments : ℕ)
  | error (message : Str)
deriving DecidableEq

/-- The per-segment loop of `generate_streaming`: yield `progress` before
dispatching the segment, `audio_chunk` after it completes; a model exception
is caught by the surrounding `try` and turns into a single terminal `error`
event; after the last segment one `done` event with the accumulated duration.
`i` counts segments already emitted, `totalDur` accumulates unrounded
durations. -/
def streamLoop (env : Env) (cfg : ℚ) (steps : ℕ) (pw pt : Option Str)
    (nrm dns : Bool) (total : ℕ) :
    ℕ → ℚ → List Str → List ModelCall × List StreamEvent
  | _, totalDur, [] => ([], [.done (round3 totalDur) total])
  | i, totalDur, seg :: rest =>
    match env.model ⟨seg, pw, pt, cfg, steps, nrm, dns⟩ with
    | .error e =>
      ([⟨seg, pw, pt, cfg, steps, nrm, dns⟩], [.progress (i + 1) total, .error e])
    | .ok wav =>
      match streamLoop env cfg steps pw pt nrm dns total (i + 1)
          (totalDur + wavDuration env wav) rest with
      | (calls, evs) =>
        (⟨seg, pw, pt, cfg, steps, nrm, dns⟩ :: calls,
         .progress (i + 1) total ::
           .audioChunk (i + 1) wav (round3 (wavDuration env wav)) :: evs)

namespace TTSService

/-- The tail of `generate_streaming` after voice resolution. -/
def generateStreamingResolved (env : Env) (req : GenRequest) (pw pt : Option Str) :
    List GatewayCall × List StreamEvent :=
  match streamLoop env (resolveCfg req.cfgValue env.settings.defaultCfgValue)
      (resolveSteps req.inferenceTimesteps env.settings.defaultInferenceTimesteps)
      pw pt req.normalize req.denoise
      (smartSplit env.settings.splitMaxLength req.text).length 0 0
      (smartSplit env.settings.splitMaxLength req.text) with
  | (calls, evs) => (.ensureLoaded :: calls.map .infer, evs)

/-- `TTSService.generate_streaming`: `await self._ensure_model_loaded()` is
awaited before the generator's `try` block, so a load failure raises out of
the generator on first iteration and the emitted event sequence is empty (no
`error` event).  With the model loaded, a missing stored voice yields a
single `error` event and returns; otherwise the segment loop runs and any
failure inside the `try` ends the stream with a single `error` event. -/
def generateStreaming (env : Env) (req : GenRequest) :
    List GatewayCall × List StreamEvent :=
  match env.loadModel with
  | .error _ => ([.ensureLoaded], [])
  | .ok _ =>
    match resolvePrompt env req with
    | .error (.loadFailure msg) => ([.ensureLoaded], [.error msg])
    | .error (.voiceNotFound id) =>
      ([.ensureLoaded], [.error (("Voice not found: ").toList ++ id)])
    | .error (.inference msg) => ([.ensureLoaded], [.error msg])
    | .error .emptyAudioList => ([.ensureLoaded], [.error []])
    | .ok (pw, pt) => generateStreamingResolved env req pw pt

end TTSService

/-- HTTP-level failures of the TTS router (response formatting is routing
glue and out of scope; only status class and detail are modelled). -/
inductive HTTPError
  | badRequest (detail : Str)
  | notFound (detail : Str)
  | serverError (detail : Str)
deriving DecidableEq

/-- `generate_tts` (src/api/routers/tts.py): request validation in source
order, then the service call; `ValueError` (missing voice) maps to 404 and
any other exception to 500. -/
def generateTts (env : Env) (req : GenRequest) :
    List GatewayCall × Except HTTPError GenResult :=
  if (strip req.text).length = 0 then
    ([], .error (.badRequest ("Text cannot be empty").toList))
  else if env.settings.maxTextLength < req.text.length then
    ([], .error (.badRequest ("Text too long").toList))
  else if truthyStr req.voiceUuid && truthyStr req.tempAudioBase64 then
    ([], .error (.badRequest
      ("Cannot use both voice_uuid and temp_audio_base64. Choose one.").toList))
  else
    match TTSService.generate env req with
    | (calls, .ok r) => (calls, .ok r)
    | (calls, .error (.loadFailure msg)) => (calls, .error (.serverError msg))
    | (calls, .error (.voiceNotFound id)) => (calls, .error (.notFound id))
    | (calls, .error (.inference msg)) => (calls, .error (.serverError msg))
    | (calls, .error .emptyAudioList) => (calls, .error (.serverError []))

/-- The model call a given request issues for one segment, with resolved
parameters and resolved reference voice. -/
def requestCall (env : Env) (req : GenRequest) (pw pt : Option Str) (seg : Str) :
    ModelCall :=
  ⟨seg, pw, pt, resolveCfg req.cfgValue env.settings.defaultCfgValue,
   resolveSteps req.inferenceTimesteps env.settings.defaultInferenceTimesteps,
   req.normalize, req.denoise⟩

/-- The audio the model oracle yields for one segment call (empty on error;
only used to describe successful runs). -/
def segWav (env : Env) (cfg : ℚ) (steps : ℕ) (pw pt : Option Str)
    (nrm dns : Bool) (seg : Str) : Wav :=
  match env.model ⟨seg, pw, pt, cfg, steps, nrm, dns⟩ with
  | .ok w => w
  | .error _ => []

/-- `segWav` at a request's resolved parameters. -/
def requestSegmentWav (env : Env) (req : GenRequest) (pw pt : Option Str)
    (seg : Str) : Wav :=
  segWav env (resolveCfg req.cfgValue env.settings.defaultCfgValue)
    (resolveSteps req.inferenceTimesteps env.settings.defaultInferenceTimesteps)
    pw pt req.normalize req.denoise seg

/-- The terminal stream events (`done` and `error`). -/
def isTerminal : StreamEvent → Bool
  | .done _ _ => true
  | .error _ => true
  | .progress _ _ => false
  | .audioChunk _ _ _ => false

/-- The event pair the spec prescribes for one (zero-based) indexed segment:
`progress` then `audio_chunk`, with the source's one-based numbering. -/
def specSegmentEvents (env : Env) (req : GenRequest) (pw pt : Option Str)
    (total : ℕ) (p : ℕ × Str) : List StreamEvent :=
  [.progress (p.1 + 1) total,
   .audioChunk (p.1 + 1) (requestSegmentWav env req pw pt p.2)
     (round3 (wavDuration env (requestSegmentWav env req pw pt p.2)))]

/-- The full event sequence the spec prescribes for an all-successful
streaming run: the indexed pairs in order, then exactly one `done` carrying
the total duration and the segment count. -/
def specStreamSuccess (env : Env) (req : GenRequest) (pw pt : Option Str)
    (segs : List Str) : List StreamEvent :=
  (segs.enum.flatMap (specSegmentEvents env req pw pt segs.length)) ++
    [.done (round3 ((segs.map
        (fun seg => wavDuration env (requestSegmentWav env req pw pt seg))).sum))
      segs.length]

/-- A concrete environment whose load succeeds and whose model oracle always
succeeds with two samples, used by the witnesses. -/
def envA : Env :=
  ⟨⟨2, 10, 300, 5000⟩, fun _ => none, .ok (), fun _ => .ok [1, 2],
   fun _ => [], 1⟩

/-- A concrete environment whose load succeeds but whose model oracle always
fails. -/
def envF : Env :=
  ⟨⟨2, 10, 300, 5000⟩, fun _ => none, .ok (),
   fun _ => .error ("boom").toList, fun _ => [], 1⟩

/-- A concrete environment whose model load fails. -/
def envL : Env :=
  ⟨⟨2, 10, 300, 5000⟩, fun _ => none, .error ("boom").toList,
   fun _ => .ok [1, 2], fun _ => [], 1⟩

/-- A concrete plain request without any reference voice. -/
def reqA : GenRequest :=
  ⟨("hello").toList, none, none, none, none, none, false, false⟩

/-- A concrete request supplying both a stored voice id and inline audio. -/
def reqBoth : GenRequest :=
  ⟨("hello").toList, some (("v1").toList), some (("QUJD").toList), none,
   none, none, false, false⟩

/-!
### The ensure-loaded protocol (`TTSService._ensure_model_loaded`)

Double-checked locking over the event loop: an unlocked check of
`self._model`, `async with self._model_lock`, a re-check under the lock,
then the load in the executor.  Awaiting the lock and awaiting the load are
the suspension points, so the protocol is modelled as an interleaved
small-step transition system over `n` concurrent callers.  A load attempt
may raise (`LoadFailure`); the outcome of the `k`-th started attempt is
given by an oracle `oc k`.  On failure the `async with` block still releases
the lock and `self._model` stays `None`.
-/

/-- Control points of one caller of `_ensure_model_loaded`. -/
inductive LPC
  | start
  | waitLock
  | locked
  | loading
  | ret
  | failed
deriving DecidableEq

/-- Shared gateway state with `n` callers: whether `self._model` is set, the
holder of `self._model_lock`, each caller's control point, and the number of
load attempts started so far. -/
@[ext]
structure LState (n : ℕ) where
  model : Bool
  lock : Option (Fin n)
  pc : Fin n → LPC
  loads : ℕ

/-- Initial state: Unloaded, lock free, every caller at the first check. -/
def initState (n : ℕ) : LState n := ⟨false, none, fun _ => .start, 0⟩

/-- Interleaved small-step semantics of `_ensure_model_loaded`. -/
inductive Step {n : ℕ} (oc : ℕ → Bool) : LState n → LState n → Prop
  | checkLoaded (s : LState n) (i : Fin n) :
      s.pc i = .start → s.model = true →
      Step oc s { s with pc := Function.update s.pc i .ret }
  | checkUnloaded (s : LState n) (i : Fin n) :
      s.pc i = .start → s.model = false →
      Step oc s { s with pc := Function.update s.pc i .waitLock }
  | acquire (s : LState n) (i : Fin n) :
      s.pc i = .waitLock → s.lock = none →
      Step oc s { s with lock := some i, pc := Function.update s.pc i .locked }
  | recheckLoaded (s : LState n) (i : Fin n) :
      s.pc i = .locked → s.model = true →
      Step oc s { s with lock := none, pc := Function.update s.pc i .ret }
  | beginLoad (s : LState n) (i : Fin n) :
      s.pc i = .locked → s.model = false →
      Step oc s
        { s with pc := Function.update s.pc i .loading, loads := s.loads + 1 }
  | loadOk (s : LState n) (i : Fin n) :
      s.pc i = .loading → oc (s.loads - 1) = true →
      Step oc s
        { s with model := true, lock := none, pc := Function.update s.pc i .ret }
  | loadFail (s : LState n) (i : Fin n) :
      s.pc i = .loading → oc (s.loads - 1) = false →
      Step oc s { s with lock := none, pc := Function.update s.pc i .failed }

/-- Reachability under an interleaving of caller steps. -/
def Reach {n : ℕ} (oc : ℕ → Bool) : LState n → LState n → Prop :=
  Relation.ReflTransGen (Step oc)

/-- The state a failed load attempt of caller `i` produces: lock released,
the caller surfaces the exception, `self._model` untouched. -/
def failResult {n : ℕ} (s : LState n) (i : Fin n) : LState n :=
  { s with lock := none, pc := Function.update s.pc i .failed }

/-- Invariants of the protocol that hold for every load-outcome oracle. -/
structure GInv {n : ℕ} (s : LState n) : Prop where
  lockOwner : ∀ i, (s.pc i = .locked ∨ s.pc i = .loading) → s.lock = some i
  loadingUnloaded : ∀ i, s.pc i = .loading → s.model = false

/-- Invariants of the protocol when every load attempt succeeds. -/
structure SInv {n : ℕ} (s : LState n) : Prop where
  lockOwner : ∀ i, (s.pc i = .locked ∨ s.pc i = .loading) → s.lock = some i
  loadingUnloaded : ∀ i, s.pc i = .loading → s.model = false
  loadsBound : s.loads ≤ 1
  loadsIff : s.loads = 1 ↔ (s.model = true ∨ ∃ i, s.pc i = .loading)
  retLoaded : ∀ i, s.pc i = .ret → s.model = true

/-- Oracle under which the first load attempt fails and any retry succeeds. -/
def retryOracle : ℕ → Bool := fun k => decide (k ≠ 0)

/-- Intermediate and final states of the concrete single-caller success
trace. -/
def c3Final : LState 1 := ⟨true, none, fun _ => .ret, 1⟩

/-- Intermediate state of the concrete two-caller retry trace: caller 0 holds
the lock and is loading (attempt 0, which will fail). -/
def c7s3 : LState 2 := ⟨false, some 0, fun i => if i = 0 then .loading else .start, 1⟩

/-- Final state of the retry trace: caller 0 surfaced the failure, caller 1
re-attempted the load and succeeded. -/
def c7Final : LState 2 := ⟨true, none, fun i => if i = 0 then .failed else .ret, 2⟩

/-!
### Artifact store (src/api/utils/cleanup.py)

`datetime` values are rationals measured in hours: `timedelta(hours=h)`
added to a datetime is order-isomorphic to adding `h` to the rational.
File contents are abstract byte lists; the metadata dict and the directory
are association lists keyed by audio id and filename.
-/

/-- Raw file contents. -/
abbrev Bytes := List ℕ

/-- One entry of `metadata.json`. -/
structure AudioMeta where
  audioId : Str
  filename : Str
  format : Str
  sampleRate : ℕ
  durationSeconds : ℚ
  createdAt : ℚ
  expiresAt : ℚ
deriving DecidableEq

/-- Python dict update `d[k] = v` on an association list. -/
def dictSet {α : Type} (l : List (Str × α)) (k : Str) (v : α) : List (Str × α) :=
  (k, v) :: l.filter (fun p => ¬ p.1 = k)

/-- Python dict read `d.get(k)` (also `k in d`). -/
def dictGet {α : Type} (l : List (Str × α)) (k : Str) : Option α :=
  (l.find? (fun p => p.1 = k)).map Prod.snd

/-- Python `del d[k]` (also used for unlinking a file). -/
def dictDel {α : Type} (l : List (Str × α)) (k : Str) : List (Str × α) :=
  l.filter (fun p => ¬ p.1 = k)

/-- `GeneratedAudioManager` state: the resolved `expire_hours`, the metadata
mapping and the on-disk files keyed by filename. -/
structure AMState where
  expireHours : ℚ
  metadata : List (Str × AudioMeta)
  files : List (Str × Bytes)
deriving DecidableEq

/-- `__init__` with an empty directory:
`self.expire_hours = expire_hours or settings.generated_audio_expire_hours`,
so a supplied `0` is falsy and replaced by the settings default. -/
def initManager (expireHoursArg : Option ℚ) (settingsDefault : ℚ) : AMState :=
  ⟨match expireHoursArg with
    | none => settingsDefault
    | some h => if h = 0 then settingsDefault else h,
   [], []⟩

/-- `save_audio` at time `now`: write `{audio_id}.{format}`, then insert the
metadata entry with `expires_at = now + timedelta(hours=self.expire_hours)`. -/
def saveAudio (s : AMState) (now : ℚ) (audioId : Str) (data : Bytes)
    (fmt : Str) (sr : ℕ) (dur : ℚ) : AudioMeta × AMState :=
  (⟨audioId, audioId ++ ('.' :: fmt), fmt, sr, dur, now, now + s.expireHours⟩,
   { s with
      files := dictSet s.files (audioId ++ ('.' :: fmt)) data,
      metadata := dictSet s.metadata audioId
        ⟨audioId, audioId ++ ('.' :: fmt), fmt, sr, dur, now, now + s.expireHours⟩ })

/-- `_delete_audio`: remove the file if present, then the metadata entry. -/
def deleteAudio (s : AMState) (audioId : Str) : AMState :=
  match dictGet s.metadata audioId with
  | none => s
  | some meta =>
    { s with
       files := dictDel s.files meta.filename,
       metadata := dictDel s.metadata audioId }

/-- `get_audio_path` at time `now`: unknown id is absent; an entry with
`now > expires_at` is eagerly deleted and reported absent; otherwise the
filename when the file exists. -/
def getAudioPath (s : AMState) (now : ℚ) (audioId : Str) :
    Option Str × AMState :=
  match dictGet s.metadata audioId with
  | none => (none, s)
  | some meta =>
    if meta.expiresAt < now then (none, deleteAudio s audioId)
    else
      match dictGet s.files meta.filename with
      | some _ => (some meta.filename, s)
      | none => (none, s)

/-- `get_audio_info` at time `now` (no file-existence check in the source). -/
def getAudioInfo (s : AMState) (now : ℚ) (audioId : Str) :
    Option AudioMeta × AMState :=
  match dictGet s.metadata audioId with
  | none => (none, s)
  | some meta =>
    if meta.expiresAt < now then (none, deleteAudio s audioId)
    else (some meta, s)

/-- The ids `cleanup_expired` collects as expired at time `now` (the
malformed-entry `except` branch is unrepresentable in the typed model). -/
def expiredIds (s : AMState) (now : ℚ) : List Str :=
  (s.metadata.filter (fun p => p.2.expiresAt < now)).map Prod.fst

/-- `cleanup_expired`: delete every expired entry and return the count. -/
def cleanupExpired (s : AMState) (now : ℚ) : ℕ × AMState :=
  ((expiredIds s now).length, (expiredIds s now).foldl deleteAudio s)


/-! ### Whitespace and strip lemmas -/

lemma removeWS_append (a b : Str) : removeWS (a ++ b) = removeWS a ++ removeWS b :=
  List.filter_append a b

lemma removeWS_nil : removeWS [] = [] := rfl

lemma removeWS_cons (c : Char) (cs : Str) :
    removeWS (c :: cs) = if isWS c then removeWS cs else c :: removeWS cs := by
  by_cases h : isWS c <;> simp [removeWS, List.filter_cons, h]

lemma removeWS_stripLeft (s : Str) : removeWS (stripLeft s) = removeWS s := by
  induction s with
  | nil => rfl
  | cons c cs ih =>
    simp only [stripLeft, List.dropWhile_cons]
    by_cases h : isWS c
    · simpa [removeWS, List.filter_cons, h] using ih
    · simp [h]

lemma removeWS_reverse (s : Str) : removeWS s.reverse = (removeWS s).reverse :=
  List.filter_reverse _ s

lemma removeWS_stripRight (s : Str) : removeWS (stripRight s) = removeWS s := by
  have h : removeWS (stripLeft s.reverse) = removeWS s.reverse := removeWS_stripLeft s.reverse
  unfold stripRight
  calc removeWS (s.reverse.dropWhile isWS).reverse
      = (removeWS (stripLeft s.reverse)).reverse := removeWS_reverse _
    _ = (removeWS s.reverse).reverse := by rw [h]
    _ = removeWS s := by rw [removeWS_reverse, List.reverse_reverse]

lemma removeWS_strip (s : Str) : removeWS (strip s) = removeWS s := by
  unfold strip
  rw [removeWS_stripRight, removeWS_stripLeft]

lemma stripLeft_length_le (s : Str) : (stripLeft s).length ≤ s.length :=
  (List.dropWhile_sublist _).length_le

lemma strip_length_le (s : Str) : (strip s).length ≤ s.length := by
  unfold strip stripRight
  calc ((stripLeft s).reverse.dropWhile isWS).reverse.length
      = ((stripLeft s).reverse.dropWhile isWS).length := List.length_reverse _
    _ ≤ (stripLeft s).reverse.length := (List.dropWhile_sublist _).length_le
    _ = (stripLeft s).length := List.length_reverse _
    _ ≤ s.length := stripLeft_length_le s

lemma removeWS_eq_nil_iff (s : Str) : removeWS s = [] ↔ ∀ c ∈ s, isWS c = true := by
  simp [removeWS, List.filter_eq_nil_iff]

lemma strip_eq_nil_iff (s : Str) : strip s = [] ↔ removeWS s = [] := by
  constructor
  · intro h
    have := removeWS_strip s
    rw [h] at this
    exact this.symm
  · intro h
    have hall : ∀ c ∈ s, isWS c = true := (removeWS_eq_nil_iff s).mp h
    have hl : stripLeft s = [] := List.dropWhile_eq_nil_iff.mpr hall
    unfold strip
    rw [hl]
    rfl

lemma removeWS_collapseRuns (d : Char) (hd : isWS d = true) (s : Str) :
    removeWS (collapseRuns d s) = removeWS s := by
  induction s with
  | nil => rfl
  | cons c cs ih =>
    unfold collapseRuns
    split
    · next h =>
      have hc : isWS c = true := by rw [h.1]; exact hd
      simpa [removeWS, List.filter_cons, hc] using ih
    · by_cases hc : isWS c <;> simp [removeWS, List.filter_cons, hc] at ih ⊢ <;> exact ih

lemma removeWS_normalizeText (s : Str) : removeWS (normalizeText s) = removeWS s := by
  unfold normalizeText
  rw [removeWS_strip, removeWS_collapseRuns ' ' (by decide), removeWS_collapseRuns '\n' (by decide)]

/-! ### splitByPattern lemmas -/

lemma removeWS_flatten_splitByPatternGo (isD : Char → Bool) (t : Str) :
    ∀ current : Str,
      removeWS (List.flatten (splitByPatternGo isD current t)) = removeWS current ++ removeWS t := by
  induction t with
  | nil =>
    intro current
    unfold splitByPatternGo
    split
    · next h =>
      have : removeWS current = [] := (strip_eq_nil_iff current).mp h
      simp [this, removeWS_nil]
    · simp [removeWS_nil]
  | cons c cs ih =>
    intro current
    unfold splitByPatternGo
    split
    · split
      · next h =>
        have h0 : removeWS (current ++ [c]) = [] := (strip_eq_nil_iff _).mp h
        rw [removeWS_append] at h0
        have hcur : removeWS current = [] := by
          rcases List.append_eq_nil.mp h0 with ⟨h1, _⟩
          exact h1
        have hc : removeWS [c] = [] := by
          rcases List.append_eq_nil.mp h0 with ⟨_, h2⟩
          exact h2
        have hcw : isWS c = true := by
          by_contra hcw
          simp [removeWS, List.filter_cons, hcw] at hc
        rw [ih []]
        simp [hcur, removeWS_cons, removeWS_nil, hcw]
      · rw [List.flatten_cons, removeWS_append, ih []]
        by_cases hcw : isWS c <;>
          simp [removeWS_cons, removeWS_append, removeWS_nil, hcw]
    · rw [ih (current ++ [c])]
      by_cases hcw : isWS c <;>
        simp [removeWS_cons, removeWS_append, removeWS_nil, hcw]

lemma removeWS_flatten_splitByPattern (isD : Char → Bool) (t : Str) :
    removeWS (List.flatten (splitByPattern isD t)) = removeWS t := by
  unfold splitByPattern
  rw [removeWS_flatten_splitByPatternGo]
  rfl

/-! ### hardSplit lemmas -/

lemma rfindSpace_bounds (s : Str) (a : Nat) :
    ∀ b p, rfindSpace s a b = some p → a ≤ p ∧ p < b := by
  intro b
  induction b with
  | zero => intro p h; simp [rfindSpace] at h
  | succ b ih =>
    intro p h
    unfold rfindSpace at h
    split at h
    · next hc =>
      cases h
      exact ⟨hc.1, Nat.lt_succ_self b⟩
    · rcases ih p h with ⟨h1, h2⟩
      exact ⟨h1, Nat.lt_succ_of_lt h2⟩

lemma hardSplitPoint_pos (m : Nat) (hm : 0 < m) (r : Str) : 0 < hardSplitPoint m r := by
  unfold hardSplitPoint
  split
  · next p _ =>
    split
    · next h => exact Nat.lt_of_le_of_lt (Nat.zero_le _) h
    · exact hm
  · exact hm

lemma hardSplitPoint_le (m : Nat) (r : Str) : hardSplitPoint m r ≤ m := by
  unfold hardSplitPoint
  split
  · next p hp =>
    split
    · exact Nat.le_of_lt (rfindSpace_bounds r (m - 50) m p hp).2
    · exact Nat.le_refl m
  · exact Nat.le_refl m

lemma hardSplitGo_spec (m : Nat) (hm : 0 < m) :
    ∀ (fuel : Nat) (r : Str), r.length ≤ fuel →
      (∀ s ∈ hardSplitGo m fuel r, s.length ≤ m ∧ s ≠ []) ∧
      removeWS (List.flatten (hardSplitGo m fuel r)) = removeWS r := by
  intro fuel
  induction fuel with
  | zero =>
    intro r hr
    have hr0 : r = [] := List.eq_nil_of_length_eq_zero (Nat.le_zero.mp hr)
    subst hr0
    simp [hardSplitGo, removeWS_nil]
  | succ fuel ih =>
    intro r hr
    unfold hardSplitGo
    split
    · next hlen =>
      have hsp1 : 0 < hardSplitPoint m r := hardSplitPoint_pos m hm r
      have hspm : hardSplitPoint m r ≤ m := hardSplitPoint_le m r
      have hrest : (strip (r.drop (hardSplitPoint m r))).length ≤ fuel := by
        have h1 : (strip (r.drop (hardSplitPoint m r))).length ≤ r.length - hardSplitPoint m r := by
          calc (strip (r.drop (hardSplitPoint m r))).length
              ≤ (r.drop (hardSplitPoint m r)).length := strip_length_le _
            _ = r.length - hardSplitPoint m r := List.length_drop _ _
        omega
      have htake : (strip (r.take (hardSplitPoint m r))).length ≤ m := by
        calc (strip (r.take (hardSplitPoint m r))).length
            ≤ (r.take (hardSplitPoint m r)).length := strip_length_le _
          _ ≤ hardSplitPoint m r := by
              rw [List.length_take]; exact Nat.min_le_left _ _
          _ ≤ m := hspm
      have hcontent : removeWS (strip (r.take (hardSplitPoint m r))) ++
          removeWS (strip (r.drop (hardSplitPoint m r))) = removeWS r := by
        rw [removeWS_strip, removeWS_strip, ← removeWS_append, List.take_append_drop]
      rcases ih (strip (r.drop (hardSplitPoint m r))) hrest with ⟨ihb, ihc⟩
      split
      · next hseg =>
        refine ⟨ihb, ?_⟩
        rw [ihc, ← hcontent, hseg, removeWS_nil, List.nil_append]
      · next hseg =>
        constructor
        · intro s hs
          rcases List.mem_cons.mp hs with rfl | hs
          · exact ⟨htake, hseg⟩
          · exact ihb s hs
        · rw [List.flatten_cons, removeWS_append, ihc, hcontent]
    · next hlen =>
      split
      · next h0 => simp [h0, removeWS_nil]
      · next h0 =>
        constructor
        · intro s hs
          rcases List.mem_cons.mp hs with rfl | hs
          · exact ⟨Nat.le_of_not_lt hlen, h0⟩
          · simp at hs
        · simp

lemma hardSplit_spec (m : Nat) (hm : 0 < m) (t : Str) :
    (∀ s ∈ hardSplit m t, s.length ≤ m ∧ s ≠ []) ∧
      removeWS (List.flatten (hardSplit m t)) = removeWS t :=
  hardSplitGo_spec m hm t.length t (Nat.le_refl _)

/-! ### merge lemmas -/

lemma mergeAux_flatten (m k : Nat) :
    ∀ (rest : List Str) (cur : Str),
      List.flatten (mergeAux m k cur rest) = cur ++ List.flatten rest := by
  intro rest
  induction rest with
  | nil => intro cur; simp [mergeAux]
  | cons next rest ih =>
    intro cur
    unfold mergeAux
    split
    · rw [ih (cur ++ next)]
      simp
    · simp [List.flatten_cons, ih next]

lemma mergeAux_bound (m k : Nat) :
    ∀ (rest : List Str) (cur : Str), cur.length ≤ m → cur ≠ [] →
      (∀ s ∈ rest, s.length ≤ m ∧ s ≠ []) →
      ∀ s ∈ mergeAux m k cur rest, s.length ≤ m ∧ s ≠ [] := by
  intro rest
  induction rest with
  | nil =>
    intro cur h1 h2 _ s hs
    rcases List.mem_cons.mp hs with rfl | hs
    · exact ⟨h1, h2⟩
    · simp at hs
  | cons next rest ih =>
    intro cur h1 h2 hrest s hs
    unfold mergeAux at hs
    split at hs
    · next hcond =>
      refine ih (cur ++ next) ?_ ?_ ?_ s hs
      · rw [List.length_append]; exact hcond.2
      · intro hne
        rcases List.append_eq_nil.mp hne with ⟨hc, _⟩
        exact h2 hc
      · intro x hx
        exact hrest x (List.mem_cons_of_mem _ hx)
    · rcases List.mem_cons.mp hs with rfl | hs
      · exact ⟨h1, h2⟩
      · exact ih next (hrest next (List.mem_cons_self _ _)).1
          (hrest next (List.mem_cons_self _ _)).2
          (fun x hx => hrest x (List.mem_cons_of_mem _ hx)) s hs

lemma mergeShortSegments_flatten (m k : Nat) (l : List Str) :
    List.flatten (mergeShortSegments m k l) = List.flatten l := by
  match l with
  | [] => rfl
  | [s] => rfl
  | s :: s2 :: rest =>
    show List.flatten (mergeAux m k s (s2 :: rest)) = _
    rw [mergeAux_flatten]
    simp [List.flatten_cons]

lemma mergeShortSegments_bound (m k : Nat) (l : List Str)
    (h : ∀ s ∈ l, s.length ≤ m ∧ s ≠ []) :
    ∀ s ∈ mergeShortSegments m k l, s.length ≤ m ∧ s ≠ [] := by
  match l with
  | [] => intro s hs; simp [mergeShortSegments] at hs
  | [s0] =>
    intro s hs
    rcases List.mem_cons.mp hs with rfl | hs
    · exact h s (by simp)
    · simp at hs
  | s0 :: s2 :: rest =>
    intro s hs
    exact mergeAux_bound m k (s2 :: rest) s0 (h s0 (by simp)).1 (h s0 (by simp)).2
      (fun x hx => h x (List.mem_cons_of_mem _ hx)) s hs

/-! ### strip-filter and flatMap stages -/

lemma removeWS_flatten_stripFilter (l : List Str) :
    removeWS (List.flatten ((l.map strip).filter (fun s => !s.isEmpty))) =
      removeWS (List.flatten l) := by
  induction l with
  | nil => rfl
  | cons a l ih =>
    simp only [List.map_cons, List.filter_cons]
    by_cases h : strip a = []
    · have hra : removeWS a = [] := (strip_eq_nil_iff a).mp h
      simp [h, List.flatten_cons, removeWS_append, hra, ih]
    · have hcond : (!(strip a).isEmpty) = true := by
        cases he : strip a with
        | nil => exact absurd he h
        | cons x xs => rfl
      rw [hcond, if_pos rfl, List.flatten_cons, List.flatten_cons, removeWS_append,
        removeWS_append, removeWS_strip, ih]

lemma stripFilter_bound (m : Nat) (l : List Str) (h : ∀ s ∈ l, s.length ≤ m) :
    ∀ s ∈ (l.map strip).filter (fun s => !s.isEmpty), s.length ≤ m ∧ s ≠ [] := by
  intro s hs
  rcases List.mem_filter.mp hs with ⟨hmem, hne⟩
  rcases List.mem_map.mp hmem with ⟨a, ha, rfl⟩
  refine ⟨Nat.le_trans (strip_length_le a) (h a ha), ?_⟩
  intro h0
  rw [h0] at hne
  simp at hne

lemma removeWS_flatten_flatMap (l : List Str) (f : Str → List Str)
    (h : ∀ x ∈ l, removeWS (List.flatten (f x)) = removeWS x) :
    removeWS (List.flatten (l.flatMap f)) = removeWS (List.flatten l) := by
  induction l with
  | nil => rfl
  | cons a l ih =>
    rw [List.flatMap_cons, List.flatten_append, removeWS_append, List.flatten_cons,
      removeWS_append, h a (by simp), ih (fun x hx => h x (List.mem_cons_of_mem _ hx))]

/-! ### splitCore and split lemmas -/

lemma splitCore_bound (m : Nat) (hm : 0 < m) (t : Str) :
    ∀ s ∈ TextSplitter.splitCore m t, s.length ≤ m := by
  intro s hs
  rcases List.mem_flatMap.mp hs with ⟨seg, _, hmem⟩
  by_cases h1 : seg.length ≤ m
  · rw [if_pos h1] at hmem
    rcases List.mem_cons.mp hmem with rfl | hmem
    · exact h1
    · simp at hmem
  · rw [if_neg h1] at hmem
    rcases List.mem_flatMap.mp hmem with ⟨sub, _, hmem2⟩
    by_cases h2 : sub.length ≤ m
    · rw [if_pos h2] at hmem2
      rcases List.mem_cons.mp hmem2 with rfl | hmem2
      · exact h2
      · simp at hmem2
    · rw [if_neg h2] at hmem2
      exact ((hardSplit_spec m hm sub).1 s hmem2).1

lemma splitCore_content (m : Nat) (hm : 0 < m) (t : Str) :
    removeWS (List.flatten (TextSplitter.splitCore m t)) = removeWS t := by
  unfold TextSplitter.splitCore
  rw [removeWS_flatten_flatMap, removeWS_flatten_splitByPattern]
  intro seg _
  by_cases h1 : seg.length ≤ m
  · simp [h1]
  · rw [if_neg h1, removeWS_flatten_flatMap, removeWS_flatten_splitByPattern]
    intro sub _
    by_cases h2 : sub.length ≤ m
    · simp [h2]
    · rw [if_neg h2]
      exact (hardSplit_spec m hm sub).2

lemma split_whitespace (m : Nat) (text : Str) (h : strip text = []) :
    TextSplitter.split m text = [] := by
  unfold TextSplitter.split
  rw [if_pos h]

lemma split_short (m : Nat) (text : Str) (h : ¬ strip text = [])
    (h2 : (normalizeText text).length ≤ m) :
    TextSplitter.split m text = [normalizeText text] := by
  unfold TextSplitter.split
  rw [if_neg h, if_pos h2]

lemma split_long (m : Nat) (text : Str) (h : ¬ strip text = [])
    (h2 : ¬ (normalizeText text).length ≤ m) :
    TextSplitter.split m text =
      mergeShortSegments m 20
        (((TextSplitter.splitCore m (normalizeText text)).map strip).filter
          (fun s => !s.isEmpty)) := by
  unfold TextSplitter.split
  rw [if_neg h, if_neg h2]

/-- C1: for every input and every positive `max_length`, `segment` returns
non-empty segments of length at most `max_length` whose concatenation modulo
whitespace reproduces the normalized input; whitespace-only input yields the
empty sequence; input whose normalized length is at most `max_length` yields
exactly the normalized input as the single segment. -/
theorem C1_segment_contract (text : Str) (m : Nat) (hm : 0 < m) :
    (∀ s ∈ smartSplit m text, s ≠ [] ∧ s.length ≤ m) ∧
    removeWS (List.flatten (smartSplit m text)) = removeWS (normalizeText text) ∧
    ((∀ c ∈ text, isWS c = true) → smartSplit m text = []) ∧
    (¬ (∀ c ∈ text, isWS c = true) → (normalizeText text).length ≤ m →
      smartSplit m text = [normalizeText text]) := by
  have hwsiff : strip text = [] ↔ ∀ c ∈ text, isWS c = true := by
    rw [strip_eq_nil_iff, removeWS_eq_nil_iff]
  unfold smartSplit
  by_cases hstrip : strip text = []
  · rw [split_whitespace m text hstrip]
    have hrem : removeWS text = [] := (strip_eq_nil_iff text).mp hstrip
    refine ⟨by simp, ?_, fun _ => rfl, ?_⟩
    · rw [removeWS_normalizeText, hrem]
      rfl
    · intro hnot _
      exact absurd (hwsiff.mp hstrip) hnot
  · have htne : removeWS (normalizeText text) ≠ [] := by
      rw [removeWS_normalizeText]
      intro h0
      exact hstrip ((strip_eq_nil_iff text).mpr h0)
    by_cases hlen : (normalizeText text).length ≤ m
    · rw [split_short m text hstrip hlen]
      refine ⟨?_, by simp, ?_, fun _ _ => rfl⟩
      · intro s hs
        rcases List.mem_cons.mp hs with rfl | hs
        · refine ⟨?_, hlen⟩
          intro h0
          rw [h0] at htne
          exact htne rfl
        · simp at hs
      · intro hws
        exact absurd ((hwsiff.mpr hws)) hstrip
    · rw [split_long m text hstrip hlen]
      have hbound := stripFilter_bound m (TextSplitter.splitCore m (normalizeText text))
        (splitCore_bound m hm (normalizeText text))
      refine ⟨?_, ?_, ?_, ?_⟩
      · intro s hs
        have := mergeShortSegments_bound m 20 _ hbound s hs
        exact ⟨this.2, this.1⟩
      · rw [mergeShortSegments_flatten, removeWS_flatten_stripFilter,
          splitCore_content m hm (normalizeText text)]
      · intro hws
        exact absurd ((hwsiff.mpr hws)) hstrip
      · intro _ h2
        exact absurd h2 hlen

/-- Witness for C1 at a concrete input and bound. -/
theorem C1_segment_contract_witness :
    (∀ s ∈ smartSplit 15 ("Hello world. This is a test!").toList, s ≠ [] ∧ s.length ≤ 15) ∧
    removeWS (List.flatten (smartSplit 15 ("Hello world. This is a test!").toList)) =
      removeWS (normalizeText ("Hello world. This is a test!").toList) ∧
    ((∀ c ∈ ("Hello world. This is a test!").toList, isWS c = true) →
      smartSplit 15 ("Hello world. This is a test!").toList = []) ∧
    (¬ (∀ c ∈ ("Hello world. This is a test!").toList, isWS c = true) →
      (normalizeText ("Hello world. This is a test!").toList).length ≤ 15 →
      smartSplit 15 ("Hello world. This is a test!").toList =
        [normalizeText ("Hello world. This is a test!").toList]) :=
  C1_segment_contract ("Hello world. This is a test!").toList 15 (by decide)

/-- C8: the concrete example from the spec.  The ASCII sentence terminators
are not in the delimiter classes, so the two segments come from the
word-boundary hard split; both punctuation marks are retained. -/
theorem C8_example_split :
    smartSplit 15 ("Hello world. This is a test!").toList =
      [("Hello world.").toList, ("This is a test!").toList] ∧
    2 ≤ (smartSplit 15 ("Hello world. This is a test!").toList).length ∧
    (∀ s ∈ smartSplit 15 ("Hello world. This is a test!").toList, s.length ≤ 15) ∧
    removeWS (List.flatten (smartSplit 15 ("Hello world. This is a test!").toList)) =
      removeWS ("Hello world. This is a test!").toList ∧
    '.' ∈ ("Hello world. This is a test!").toList ∧
    '.' ∈ List.flatten (smartSplit 15 ("Hello world. This is a test!").toList) ∧
    '!' ∈ ("Hello world. This is a test!").toList ∧
    '!' ∈ List.flatten (smartSplit 15 ("Hello world. This is a test!").toList) := by
  decide

/-! ### Router validation (C5) -/

/-- C5: a request supplying both a stored voice id and inline reference audio
is rejected by validation with a 400-class failure before any inference: the
gateway trace is empty, so no model load and no segment generation happen. -/
theorem C5_both_refs_rejected (env : Env) (req : GenRequest)
    (h1 : truthyStr req.voiceUuid = true)
    (h2 : truthyStr req.tempAudioBase64 = true) :
    (generateTts env req).1 = [] ∧
    ∃ d, (generateTts env req).2 = .error (.badRequest d) := by
  unfold generateTts
  by_cases he : (strip req.text).length = 0
  · rw [if_pos he]
    exact ⟨rfl, _, rfl⟩
  · rw [if_neg he]
    by_cases hl : env.settings.maxTextLength < req.text.length
    · rw [if_pos hl]
      exact ⟨rfl, _, rfl⟩
    · rw [if_neg hl, if_pos (by rw [h1, h2]; rfl)]
      exact ⟨rfl, _, rfl⟩

/-- Witness for C5 at a concrete environment and request. -/
theorem C5_both_refs_rejected_witness :
    (generateTts envA reqBoth).1 = [] ∧
    ∃ d, (generateTts envA reqBoth).2 = .error (.badRequest d) :=
  C5_both_refs_rejected envA reqBoth (by decide) (by decide)

/-! ### Batch generation lemmas (C6, C9, C10) -/

lemma runSegments_calls_shape (env : Env) (cfg : ℚ) (steps : ℕ)
    (pw pt : Option Str) (nrm dns : Bool) :
    ∀ (segs : List Str) (c : ModelCall),
      c ∈ (runSegments env cfg steps pw pt nrm dns segs).1 →
      ∃ seg ∈ segs, c = ⟨seg, pw, pt, cfg, steps, nrm, dns⟩ := by
  intro segs
  induction segs with
  | nil => intro c hc; simp [runSegments] at hc
  | cons seg rest ih =>
    intro c hc
    unfold runSegments at hc
    cases hm : env.model ⟨seg, pw, pt, cfg, steps, nrm, dns⟩ with
    | error e =>
      rw [hm] at hc
      rcases List.mem_cons.mp hc with rfl | hc
      · exact ⟨seg, by simp, rfl⟩
      · simp at hc
    | ok wav =>
      rw [hm] at hc
      rcases hrec : runSegments env cfg steps pw pt nrm dns rest with ⟨calls, res⟩
      rw [hrec] at hc
      cases res with
      | error e =>
        rcases List.mem_cons.mp hc with rfl | hc
        · exact ⟨seg, by simp, rfl⟩
        · rcases ih c (by rw [hrec]; exact hc) with ⟨s, hs, hcs⟩
          exact ⟨s, List.mem_cons_of_mem _ hs, hcs⟩
      | ok wavs =>
        rcases List.mem_cons.mp hc with rfl | hc
        · exact ⟨seg, by simp, rfl⟩
        · rcases ih c (by rw [hrec]; exact hc) with ⟨s, hs, hcs⟩
          exact ⟨s, List.mem_cons_of_mem _ hs, hcs⟩

lemma runSegments_error_of_segfail (env : Env) (cfg : ℚ) (steps : ℕ)
    (pw pt : Option Str) (nrm dns : Bool) :
    ∀ segs : List Str,
      (∃ seg ∈ segs, ∃ e, env.model ⟨seg, pw, pt, cfg, steps, nrm, dns⟩ = .error e) →
      ∃ e, (runSegments env cfg steps pw pt nrm dns segs).2 = .error e := by
  intro segs
  induction segs with
  | nil => rintro ⟨seg, hs, _⟩; simp at hs
  | cons seg rest ih =>
    rintro ⟨s, hs, e, he⟩
    unfold runSegments
    cases hm : env.model ⟨seg, pw, pt, cfg, steps, nrm, dns⟩ with
    | error e2 => exact ⟨.inference e2, rfl⟩
    | ok wav =>
      rcases List.mem_cons.mp hs with rfl | hs
      · rw [hm] at he
        cases he
      · rcases hrec : runSegments env cfg steps pw pt nrm dns rest with ⟨calls, res⟩
        rcases ih ⟨s, hs, e, he⟩ with ⟨e3, he3⟩
        rw [hrec] at he3
        simp only at he3
        subst he3
        exact ⟨e3, rfl⟩

lemma runSegments_ok_characterize (env : Env) (cfg : ℚ) (steps : ℕ)
    (pw pt : Option Str) (nrm dns : Bool) :
    ∀ (segs : List Str) (wavs : List Wav),
      (runSegments env cfg steps pw pt nrm dns segs).2 = .ok wavs →
      (∀ seg ∈ segs, ∃ w, env.model ⟨seg, pw, pt, cfg, steps, nrm, dns⟩ = .ok w) ∧
      wavs = segs.map (segWav env cfg steps pw pt nrm dns) := by
  intro segs
  induction segs with
  | nil =>
    intro wavs h
    simp only [runSegments] at h
    cases h
    exact ⟨by simp, rfl⟩
  | cons seg rest ih =>
    intro wavs h
    unfold runSegments at h
    cases hm : env.model ⟨seg, pw, pt, cfg, steps, nrm, dns⟩ with
    | error e => rw [hm] at h; cases h
    | ok wav =>
      rw [hm] at h
      rcases hrec : runSegments env cfg steps pw pt nrm dns rest with ⟨calls, res⟩
      rw [hrec] at h
      cases res with
      | error e => cases h
      | ok wavs2 =>
        simp only at h
        cases h
        rcases ih wavs2 (by rw [hrec]) with ⟨hall, hmap⟩
        refine ⟨?_, ?_⟩
        · intro s hs
          rcases List.mem_cons.mp hs with rfl | hs
          · exact ⟨wav, hm⟩
          · exact hall s hs
        · rw [List.map_cons, ← hmap]
          have : segWav env cfg steps pw pt nrm dns seg = wav := by
            unfold segWav
            rw [hm]
          rw [this]

lemma concatAudio_eq_flatten (l : List Wav) (a : Wav) (h : concatAudio l = some a) :
    a = List.flatten l := by
  match l with
  | [] => cases h
  | [w] =>
    simp only [concatAudio] at h
    cases h
    simp
  | w :: w2 :: ws =>
    simp only [concatAudio] at h
    cases h
    rfl

lemma generate_resolve (env : Env) (req : GenRequest) (pw pt : Option Str)
    (hload : env.loadModel = .ok ()) (hres : resolvePrompt env req = .ok (pw, pt)) :
    TTSService.generate env req = TTSService.generateResolved env req pw pt := by
  unfold TTSService.generate
  rw [hload, hres]

lemma generateStreaming_resolve (env : Env) (req : GenRequest) (pw pt : Option Str)
    (hload : env.loadModel = .ok ()) (hres : resolvePrompt env req = .ok (pw, pt)) :
    TTSService.generateStreaming env req =
      TTSService.generateStreamingResolved env req pw pt := by
  unfold TTSService.generateStreaming
  rw [hload, hres]

lemma generate_ok_spec (env : Env) (req : GenRequest) (pw pt : Option Str)
    (hres : resolvePrompt env req = .ok (pw, pt)) (r : GenResult)
    (hr : (TTSService.generate env req).2 = .ok r) :
    (∀ seg ∈ smartSplit env.settings.splitMaxLength req.text,
      ∃ w, env.model (requestCall env req pw pt seg) = .ok w) ∧
    r.audio = List.flatten ((smartSplit env.settings.splitMaxLength req.text).map
      (requestSegmentWav env req pw pt)) := by
  cases hload : env.loadModel with
  | error m =>
    unfold TTSService.generate at hr
    rw [hload] at hr
    simp at hr
  | ok u =>
    cases u
    rw [generate_resolve env req pw pt hload hres] at hr
    unfold TTSService.generateResolved at hr
    rcases hrec : runSegments env (resolveCfg req.cfgValue env.settings.defaultCfgValue)
        (resolveSteps req.inferenceTimesteps env.settings.defaultInferenceTimesteps)
        pw pt req.normalize req.denoise
        (smartSplit env.settings.splitMaxLength req.text) with ⟨calls, res⟩
    rw [hrec] at hr
    cases res with
    | error e => simp at hr
    | ok wavs =>
      rcases runSegments_ok_characterize env _ _ pw pt _ _ _ wavs
        (by rw [hrec]) with ⟨hall, hmap⟩
      dsimp only at hr
      cases hca : concatAudio wavs with
      | none => rw [hca] at hr; simp at hr
      | some audio =>
        rw [hca] at hr
        simp only at hr
        cases hr
        refine ⟨fun seg hs => hall seg hs, ?_⟩
        show audio = _
        rw [concatAudio_eq_flatten wavs audio hca, hmap]
        rfl

/-- C6: in batch mode any segment inference failure makes the whole generate
call fail; a success means every segment succeeded and the returned audio is
exactly the concatenation of all per-segment outputs, so no partial result is
ever returned. -/
theorem C6_batch_abort_on_failure (env : Env) (req : GenRequest) (pw pt : Option Str)
    (hres : resolvePrompt env req = .ok (pw, pt)) :
    ((∃ seg ∈ smartSplit env.settings.splitMaxLength req.text,
        ∃ e, env.model (requestCall env req pw pt seg) = .error e) →
      ∃ e, (TTSService.generate env req).2 = .error e) ∧
    (∀ r, (TTSService.generate env req).2 = .ok r →
      (∀ seg ∈ smartSplit env.settings.splitMaxLength req.text,
        ∃ w, env.model (requestCall env req pw pt seg) = .ok w) ∧
      r.audio = List.flatten ((smartSplit env.settings.splitMaxLength req.text).map
        (requestSegmentWav env req pw pt))) := by
  constructor
  · rintro ⟨seg, hseg, e, he⟩
    cases hload : env.loadModel with
    | error m =>
      refine ⟨.loadFailure m, ?_⟩
      unfold TTSService.generate
      rw [hload]
    | ok u =>
      cases u
      rcases runSegments_error_of_segfail env
          (resolveCfg req.cfgValue env.settings.defaultCfgValue)
          (resolveSteps req.inferenceTimesteps env.settings.defaultInferenceTimesteps)
          pw pt req.normalize req.denoise
          (smartSplit env.settings.splitMaxLength req.text)
          ⟨seg, hseg, e, he⟩ with ⟨e2, he2⟩
      rw [generate_resolve env req pw pt hload hres]
      unfold TTSService.generateResolved
      rcases hrec : runSegments env (resolveCfg req.cfgValue env.settings.defaultCfgValue)
          (resolveSteps req.inferenceTimesteps env.settings.defaultInferenceTimesteps)
          pw pt req.normalize req.denoise
          (smartSplit env.settings.splitMaxLength req.text) with ⟨calls, res⟩
      rw [hrec] at he2
      simp only at he2
      subst he2
      exact ⟨e2, rfl⟩
  · exact fun r hr => generate_ok_spec env req pw pt hres r hr

/-- Witness for C6: a concrete always-failing model makes the batch call
fail. -/
theorem C6_batch_abort_on_failure_witness :
    ∃ e, (TTSService.generate envF reqA).2 = .error e :=
  (C6_batch_abort_on_failure envF reqA none none rfl).1
    ⟨("hello").toList, by decide, ("boom").toList, rfl⟩

/-- C9: a successful batch generation returns audio whose sample count is the
sum of the per-segment sample counts, in original segment order (so the total
duration is the sum of per-segment durations). -/
theorem C9_batch_duration_sum (env : Env) (req : GenRequest) (pw pt : Option Str)
    (r : GenResult) (hres : resolvePrompt env req = .ok (pw, pt))
    (hok : (TTSService.generate env req).2 = .ok r) :
    r.audio.length =
      ((smartSplit env.settings.splitMaxLength req.text).map
        (fun seg => (requestSegmentWav env req pw pt seg).length)).sum := by
  rcases generate_ok_spec env req pw pt hres r hok with ⟨_, haudio⟩
  rw [haudio, List.length_flatten, List.map_map]
  rfl

/-- Witness for C9 at a concrete run: one segment of two samples. -/
theorem C9_batch_duration_sum_witness :
    (⟨[1, 2], 1, [("hello").toList]⟩ : GenResult).audio.length =
      ((smartSplit envA.settings.splitMaxLength reqA.text).map
        (fun seg => (requestSegmentWav envA reqA none none seg).length)).sum :=
  C9_batch_duration_sum envA reqA none none ⟨[1, 2], 1, [("hello").toList]⟩
    rfl rfl

lemma streamLoop_calls_shape (env : Env) (cfg : ℚ) (steps : ℕ)
    (pw pt : Option Str) (nrm dns : Bool) (total : ℕ) :
    ∀ (segs : List Str) (i : ℕ) (d : ℚ) (c : ModelCall),
      c ∈ (streamLoop env cfg steps pw pt nrm dns total i d segs).1 →
      ∃ seg ∈ segs, c = ⟨seg, pw, pt, cfg, steps, nrm, dns⟩ := by
  intro segs
  induction segs with
  | nil => intro i d c hc; simp [streamLoop] at hc
  | cons seg rest ih =>
    intro i d c hc
    unfold streamLoop at hc
    cases hm : env.model ⟨seg, pw, pt, cfg, steps, nrm, dns⟩ with
    | error e =>
      rw [hm] at hc
      rcases List.mem_cons.mp hc with rfl | hc
      · exact ⟨seg, by simp, rfl⟩
      · simp at hc
    | ok wav =>
      rw [hm] at hc
      dsimp only at hc
      rcases hrec : streamLoop env cfg steps pw pt nrm dns total (i + 1)
          (d + wavDuration env wav) rest with ⟨calls, evs⟩
      rw [hrec] at hc
      rcases List.mem_cons.mp hc with rfl | hc
      · exact ⟨seg, by simp, rfl⟩
      · rcases ih (i + 1) (d + wavDuration env wav) c (by rw [hrec]; exact hc)
          with ⟨s, hs, hcs⟩
        exact ⟨s, List.mem_cons_of_mem _ hs, hcs⟩

/-- C10: every inference call issued by `generate` or `generate_streaming`
carries the resolved parameters, and the resolution maps a missing or zero
guidance value / step count to the configured default while passing every
non-zero value through, so a caller cannot make the model run with zero
guidance or zero steps. -/
theorem C10_falsy_params_default (env : Env) (req : GenRequest) :
    (∀ mc : ModelCall, GatewayCall.infer mc ∈ (TTSService.generate env req).1 →
      mc.cfgValue = resolveCfg req.cfgValue env.settings.defaultCfgValue ∧
      mc.inferenceTimesteps =
        resolveSteps req.inferenceTimesteps env.settings.defaultInferenceTimesteps) ∧
    (∀ mc : ModelCall, GatewayCall.infer mc ∈ (TTSService.generateStreaming env req).1 →
      mc.cfgValue = resolveCfg req.cfgValue env.settings.defaultCfgValue ∧
      mc.inferenceTimesteps =
        resolveSteps req.inferenceTimesteps env.settings.defaultInferenceTimesteps) ∧
    (∀ d : ℚ, resolveCfg none d = d) ∧
    (∀ d : ℚ, resolveCfg (some 0) d = d) ∧
    (∀ (v d : ℚ), v ≠ 0 → resolveCfg (some v) d = v) ∧
    (∀ d : ℕ, resolveSteps none d = d) ∧
    (∀ d : ℕ, resolveSteps (some 0) d = d) ∧
    (∀ (v d : ℕ), v ≠ 0 → resolveSteps (some v) d = v) := by
  refine ⟨?_, ?_, fun d => rfl, fun d => by simp [resolveCfg],
    fun v d hv => by simp [resolveCfg, hv], fun d => rfl,
    fun d => by simp [resolveSteps], fun v d hv => by simp [resolveSteps, hv]⟩
  · intro mc hmc
    cases hload : env.loadModel with
    | error m =>
      unfold TTSService.generate at hmc
      rw [hload] at hmc
      simp at hmc
    | ok u =>
     cases u
     cases hres : resolvePrompt env req with
     | error e =>
      unfold TTSService.generate at hmc
      rw [hload, hres] at hmc
      simp at hmc
     | ok p =>
      rcases p with ⟨pw, pt⟩
      rw [generate_resolve env req pw pt hload hres] at hmc
      unfold TTSService.generateResolved at hmc
      rcases hrec : runSegments env (resolveCfg req.cfgValue env.settings.defaultCfgValue)
          (resolveSteps req.inferenceTimesteps env.settings.defaultInferenceTimesteps)
          pw pt req.normalize req.denoise
          (smartSplit env.settings.splitMaxLength req.text) with ⟨calls, res⟩
      rw [hrec] at hmc
      have hcalls : mc ∈ calls := by
        cases res with
        | error e =>
          simp only at hmc
          rcases List.mem_cons.mp hmc with h | h
          · cases h
          · rcases List.mem_map.mp h with ⟨c, hc, hceq⟩
            cases hceq
            exact hc
        | ok wavs =>
          dsimp only at hmc
          cases hca : concatAudio wavs with
          | none =>
            rw [hca] at hmc
            simp only at hmc
            rcases List.mem_cons.mp hmc with h | h
            · cases h
            · rcases List.mem_map.mp h with ⟨c, hc, hceq⟩
              cases hceq
              exact hc
          | some audio =>
            rw [hca] at hmc
            simp only at hmc
            rcases List.mem_cons.mp hmc with h | h
            · cases h
            · rcases List.mem_map.mp h with ⟨c, hc, hceq⟩
              cases hceq
              exact hc
      rcases runSegments_calls_shape env _ _ pw pt _ _ _ mc
        (by rw [hrec]; exact hcalls) with ⟨seg, _, rfl⟩
      exact ⟨rfl, rfl⟩
  · intro mc hmc
    cases hload : env.loadModel with
    | error m =>
      unfold TTSService.generateStreaming at hmc
      rw [hload] at hmc
      simp at hmc
    | ok u =>
     cases u
     cases hres : resolvePrompt env req with
     | error e =>
      unfold TTSService.generateStreaming at hmc
      rw [hload, hres] at hmc
      cases e <;> simp at hmc
     | ok p =>
      rcases p with ⟨pw, pt⟩
      rw [generateStreaming_resolve env req pw pt hload hres] at hmc
      unfold TTSService.generateStreamingResolved at hmc
      rcases hrec : streamLoop env (resolveCfg req.cfgValue env.settings.defaultCfgValue)
          (resolveSteps req.inferenceTimesteps env.settings.defaultInferenceTimesteps)
          pw pt req.normalize req.denoise
          (smartSplit env.settings.splitMaxLength req.text).length 0 0
          (smartSplit env.settings.splitMaxLength req.text) with ⟨calls, evs⟩
      rw [hrec] at hmc
      simp only at hmc
      have hcalls : mc ∈ calls := by
        rcases List.mem_cons.mp hmc with h | h
        · cases h
        · rcases List.mem_map.mp h with ⟨c, hc, hceq⟩
          cases hceq
          exact hc
      rcases streamLoop_calls_shape env _ _ pw pt _ _ _ _ _ _ mc
        (by rw [hrec]; exact hcalls) with ⟨seg, _, rfl⟩
      exact ⟨rfl, rfl⟩

/-- Witness for C10: with no supplied values the concrete batch and streaming
calls carry the defaults, and the resolution behaves as claimed on zero,
missing and non-zero inputs. -/
theorem C10_falsy_params_default_witness :
    ((requestCall envA reqA none none (("hello").toList)).cfgValue =
        resolveCfg reqA.cfgValue envA.settings.defaultCfgValue ∧
      (requestCall envA reqA none none (("hello").toList)).inferenceTimesteps =
        resolveSteps reqA.inferenceTimesteps envA.settings.defaultInferenceTimesteps) ∧
    resolveCfg none 2 = 2 ∧ resolveCfg (some 0) 2 = 2 ∧
    resolveCfg (some (3 / 2)) 2 = 3 / 2 ∧
    resolveSteps none 10 = 10 ∧ resolveSteps (some 0) 10 = 10 ∧
    resolveSteps (some 7) 10 = 7 :=
  ⟨(C10_falsy_params_default envA reqA).1
      (requestCall envA reqA none none (("hello").toList)) (by decide),
   (C10_falsy_params_default envA reqA).2.2.1 2,
   (C10_falsy_params_default envA reqA).2.2.2.1 2,
   (C10_falsy_params_default envA reqA).2.2.2.2.1 (3 / 2) 2 (by norm_num),
   (C10_falsy_params_default envA reqA).2.2.2.2.2.1 10,
   (C10_falsy_params_default envA reqA).2.2.2.2.2.2.1 10,
   (C10_falsy_params_default envA reqA).2.2.2.2.2.2.2 7 10 (by norm_num)⟩

/-! ### Streaming event protocol (C2) -/

lemma streamLoop_success_events (env : Env) (cfg : ℚ) (steps : ℕ)
    (pw pt : Option Str) (nrm dns : Bool) (total : ℕ) :
    ∀ (segs : List Str) (i : ℕ) (d : ℚ),
      (∀ seg ∈ segs, ∃ w, env.model ⟨seg, pw, pt, cfg, steps, nrm, dns⟩ = .ok w) →
      (streamLoop env cfg steps pw pt nrm dns total i d segs).2 =
        ((segs.enumFrom i).flatMap (fun p =>
          [.progress (p.1 + 1) total,
           .audioChunk (p.1 + 1) (segWav env cfg steps pw pt nrm dns p.2)
             (round3 (wavDuration env (segWav env cfg steps pw pt nrm dns p.2)))])) ++
        [.done (round3 (d + (segs.map
            (fun seg => wavDuration env (segWav env cfg steps pw pt nrm dns seg))).sum))
          total] := by
  intro segs
  induction segs with
  | nil => intro i d _; simp [streamLoop]
  | cons seg rest ih =>
    intro i d h
    obtain ⟨w, hw⟩ := h seg (by simp)
    have hsw : segWav env cfg steps pw pt nrm dns seg = w := by
      unfold segWav
      rw [hw]
    rcases hrec : streamLoop env cfg steps pw pt nrm dns total (i + 1)
        (d + wavDuration env w) rest with ⟨calls, evs⟩
    have hevs : evs =
        ((rest.enumFrom (i + 1)).flatMap (fun p =>
          [.progress (p.1 + 1) total,
           .audioChunk (p.1 + 1) (segWav env cfg steps pw pt nrm dns p.2)
             (round3 (wavDuration env (segWav env cfg steps pw pt nrm dns p.2)))])) ++
        [.done (round3 ((d + wavDuration env w) + (rest.map
            (fun seg => wavDuration env (segWav env cfg steps pw pt nrm dns seg))).sum))
          total] := by
      have := ih (i + 1) (d + wavDuration env w)
        (fun s hs => h s (List.mem_cons_of_mem _ hs))
      rw [hrec] at this
      exact this
    unfold streamLoop
    rw [hw]
    dsimp only
    rw [hrec]
    dsimp only
    rw [hevs]
    simp [List.enumFrom_cons, List.flatMap_cons, hsw, add_assoc]

lemma streamLoop_terminal (env : Env) (cfg : ℚ) (steps : ℕ)
    (pw pt : Option Str) (nrm dns : Bool) (total : ℕ) :
    ∀ (segs : List Str) (i : ℕ) (d : ℚ),
      (((streamLoop env cfg steps pw pt nrm dns total i d segs).2).filter
          isTerminal).length = 1 ∧
      ∃ e, ((streamLoop env cfg steps pw pt nrm dns total i d segs).2).getLast? =
          some e ∧ isTerminal e = true := by
  intro segs
  induction segs with
  | nil =>
    intro i d
    refine ⟨by simp [streamLoop, isTerminal], StreamEvent.done (round3 d) total,
      by simp [streamLoop], rfl⟩
  | cons seg rest ih =>
    intro i d
    unfold streamLoop
    cases hm : env.model ⟨seg, pw, pt, cfg, steps, nrm, dns⟩ with
    | error e =>
      refine ⟨by simp [isTerminal], StreamEvent.error e, by simp, rfl⟩
    | ok wav =>
      dsimp only
      rcases hrec : streamLoop env cfg steps pw pt nrm dns total (i + 1)
          (d + wavDuration env wav) rest with ⟨calls, evs⟩
      rcases ih (i + 1) (d + wavDuration env wav) with ⟨hlen, e, hgl, hterm⟩
      rw [hrec] at hlen hgl
      simp only at hlen hgl
      refine ⟨?_, e, ?_, hterm⟩
      · simpa [isTerminal] using hlen
      · show (([StreamEvent.progress (i + 1) total,
            StreamEvent.audioChunk (i + 1) wav (round3 (wavDuration env wav))] ++
              evs).getLast?) = some e
        rw [List.getLast?_append, hgl]
        rfl

lemma streamLoop_error_tail (env : Env) (cfg : ℚ) (steps : ℕ)
    (pw pt : Option Str) (nrm dns : Bool) (total : ℕ) :
    ∀ (segs : List Str) (i : ℕ) (d : ℚ),
      (∃ seg ∈ segs, ∃ e, env.model ⟨seg, pw, pt, cfg, steps, nrm, dns⟩ = .error e) →
      ∃ m, ((streamLoop env cfg steps pw pt nrm dns total i d segs).2).getLast? =
        some (.error m) := by
  intro segs
  induction segs with
  | nil => rintro i d ⟨s, hs, _⟩; simp at hs
  | cons seg rest ih =>
    rintro i d ⟨s, hs, e, he⟩
    unfold streamLoop
    cases hm : env.model ⟨seg, pw, pt, cfg, steps, nrm, dns⟩ with
    | error e2 => exact ⟨e2, by simp⟩
    | ok wav =>
      dsimp only
      rcases List.mem_cons.mp hs with rfl | hs
      · rw [hm] at he
        cases he
      · rcases hrec : streamLoop env cfg steps pw pt nrm dns total (i + 1)
            (d + wavDuration env wav) rest with ⟨calls, evs⟩
        rcases ih (i + 1) (d + wavDuration env wav) ⟨s, hs, e, he⟩ with ⟨m, hgl⟩
        rw [hrec] at hgl
        simp only at hgl
        refine ⟨m, ?_⟩
        show (([StreamEvent.progress (i + 1) total,
            StreamEvent.audioChunk (i + 1) wav (round3 (wavDuration env wav))] ++
              evs).getLast?) = some (StreamEvent.error m)
        rw [List.getLast?_append, hgl]
        rfl

/-- C2 (amended): a model-load failure is raised before the generator's
`try` block, so the stream aborts with no events emitted (in particular no
`error` event); with the load succeeding, the event sequence always carries
exactly one terminal event and it is last, an all-success run emits exactly
progress/audio_chunk per segment in order followed by one done event with
total duration and segment count, and any segment failure makes the
sequence end with an error event. -/
theorem C2_stream_event_protocol (env : Env) (req : GenRequest) :
    (∀ m, env.loadModel = .error m →
      (TTSService.generateStreaming env req).2 = []) ∧
    (env.loadModel = .ok () →
      ((((TTSService.generateStreaming env req).2.filter isTerminal).length = 1 ∧
        ∃ e, (TTSService.generateStreaming env req).2.getLast? = some e ∧
          isTerminal e = true) ∧
      (∀ pw pt, resolvePrompt env req = .ok (pw, pt) →
        ((∀ seg ∈ smartSplit env.settings.splitMaxLength req.text,
            ∃ w, env.model (requestCall env req pw pt seg) = .ok w) →
          (TTSService.generateStreaming env req).2 =
            specStreamSuccess env req pw pt
              (smartSplit env.settings.splitMaxLength req.text)) ∧
        ((∃ seg ∈ smartSplit env.settings.splitMaxLength req.text,
            ∃ e, env.model (requestCall env req pw pt seg) = .error e) →
          ∃ m, (TTSService.generateStreaming env req).2.getLast? =
            some (.error m))))) := by
  constructor
  · intro m hm
    unfold TTSService.generateStreaming
    rw [hm]
  · intro hload
    constructor
    · cases hres : resolvePrompt env req with
      | error e =>
        unfold TTSService.generateStreaming
        rw [hload, hres]
        cases e with
        | loadFailure msg =>
          exact ⟨by simp [isTerminal], StreamEvent.error msg, by simp, rfl⟩
        | voiceNotFound id =>
          exact ⟨by simp [isTerminal],
            StreamEvent.error ((("Voice not found: ").toList ++ id)), by simp, rfl⟩
        | inference msg =>
          exact ⟨by simp [isTerminal], StreamEvent.error msg, by simp, rfl⟩
        | emptyAudioList =>
          exact ⟨by simp [isTerminal], StreamEvent.error [], by simp, rfl⟩
      | ok p =>
        rcases p with ⟨pw, pt⟩
        rw [generateStreaming_resolve env req pw pt hload hres]
        unfold TTSService.generateStreamingResolved
        rcases hrec : streamLoop env (resolveCfg req.cfgValue env.settings.defaultCfgValue)
            (resolveSteps req.inferenceTimesteps env.settings.defaultInferenceTimesteps)
            pw pt req.normalize req.denoise
            (smartSplit env.settings.splitMaxLength req.text).length 0 0
            (smartSplit env.settings.splitMaxLength req.text) with ⟨calls, evs⟩
        have := streamLoop_terminal env
          (resolveCfg req.cfgValue env.settings.defaultCfgValue)
          (resolveSteps req.inferenceTimesteps env.settings.defaultInferenceTimesteps)
          pw pt req.normalize req.denoise
          (smartSplit env.settings.splitMaxLength req.text).length
          (smartSplit env.settings.splitMaxLength req.text) 0 0
        rw [hrec] at this
        exact this
    · intro pw pt hres
      constructor
      · intro hall
        rw [generateStreaming_resolve env req pw pt hload hres]
        unfold TTSService.generateStreamingResolved
        rcases hrec : streamLoop env (resolveCfg req.cfgValue env.settings.defaultCfgValue)
            (resolveSteps req.inferenceTimesteps env.settings.defaultInferenceTimesteps)
            pw pt req.normalize req.denoise
            (smartSplit env.settings.splitMaxLength req.text).length 0 0
            (smartSplit env.settings.splitMaxLength req.text) with ⟨calls, evs⟩
        have := streamLoop_success_events env
          (resolveCfg req.cfgValue env.settings.defaultCfgValue)
          (resolveSteps req.inferenceTimesteps env.settings.defaultInferenceTimesteps)
          pw pt req.normalize req.denoise
          (smartSplit env.settings.splitMaxLength req.text).length
          (smartSplit env.settings.splitMaxLength req.text) 0 0 hall
        rw [hrec] at this
        simp only at this
        rw [this]
        unfold specStreamSuccess specSegmentEvents requestSegmentWav
        rw [zero_add]
        rfl
      · intro hfail
        rw [generateStreaming_resolve env req pw pt hload hres]
        unfold TTSService.generateStreamingResolved
        rcases hrec : streamLoop env (resolveCfg req.cfgValue env.settings.defaultCfgValue)
            (resolveSteps req.inferenceTimesteps env.settings.defaultInferenceTimesteps)
            pw pt req.normalize req.denoise
            (smartSplit env.settings.splitMaxLength req.text).length 0 0
            (smartSplit env.settings.splitMaxLength req.text) with ⟨calls, evs⟩
        have := streamLoop_error_tail env
          (resolveCfg req.cfgValue env.settings.defaultCfgValue)
          (resolveSteps req.inferenceTimesteps env.settings.defaultInferenceTimesteps)
          pw pt req.normalize req.denoise
          (smartSplit env.settings.splitMaxLength req.text).length
          (smartSplit env.settings.splitMaxLength req.text) 0 0 hfail
        rw [hrec] at this
        exact this

/-- Counterexample to C2 as stated: a model-load failure (awaited outside
the generator's `try`) is a failure after which the emitted event sequence
is empty — it contains no error event and does not end with one. -/
theorem C2_stream_event_protocol_counterexample :
    (∃ m, envL.loadModel = .error m) ∧
    (TTSService.generateStreaming envL reqA).2 = [] ∧
    ((TTSService.generateStreaming envL reqA).2.filter isTerminal).length = 0 ∧
    (TTSService.generateStreaming envL reqA).2.getLast? = none :=
  ⟨⟨("boom").toList, rfl⟩, rfl, rfl, rfl⟩

/-- Witness for C2: a concrete load failure aborts the stream with no
events, and with the load succeeding the concrete always-succeeding model
gives a terminal-correct stream equal to the prescribed event sequence. -/
theorem C2_stream_event_protocol_witness :
    (TTSService.generateStreaming envL reqA).2 = [] ∧
    (((TTSService.generateStreaming envA reqA).2.filter isTerminal).length = 1 ∧
      ∃ e, (TTSService.generateStreaming envA reqA).2.getLast? = some e ∧
        isTerminal e = true) ∧
    (TTSService.generateStreaming envA reqA).2 =
      specStreamSuccess envA reqA none none
        (smartSplit envA.settings.splitMaxLength reqA.text) :=
  ⟨(C2_stream_event_protocol envL reqA).1 (("boom").toList) rfl,
   ((C2_stream_event_protocol envA reqA).2 rfl).1,
   (((C2_stream_event_protocol envA reqA).2 rfl).2 none none rfl).1
     (fun _ _ => ⟨[1, 2], rfl⟩)⟩

/-! ### Ensure-loaded protocol lemmas (C3, C7) -/

lemma ginv_init (n : ℕ) : GInv (initState n) := by
  constructor
  · intro i hi
    rcases hi with h | h <;> simp [initState] at h
  · intro i h
    rfl

lemma ginv_step {n : ℕ} {oc : ℕ → Bool} {s t : LState n}
    (h : GInv s) (hs : Step oc s t) : GInv t := by
  cases hs with
  | checkLoaded i hpc hm =>
    refine ⟨?_, ?_⟩
    · intro j hj
      dsimp only at hj ⊢
      rcases eq_or_ne j i with rfl | hji
      · rw [Function.update_same] at hj
        rcases hj with h' | h' <;> cases h'
      · rw [Function.update_noteq hji] at hj
        exact h.lockOwner j hj
    · intro j hj
      dsimp only at hj ⊢
      rcases eq_or_ne j i with rfl | hji
      · rw [Function.update_same] at hj
        cases hj
      · rw [Function.update_noteq hji] at hj
        exact h.loadingUnloaded j hj
  | checkUnloaded i hpc hm =>
    refine ⟨?_, ?_⟩
    · intro j hj
      dsimp only at hj ⊢
      rcases eq_or_ne j i with rfl | hji
      · rw [Function.update_same] at hj
        rcases hj with h' | h' <;> cases h'
      · rw [Function.update_noteq hji] at hj
        exact h.lockOwner j hj
    · intro j hj
      dsimp only at hj ⊢
      rcases eq_or_ne j i with rfl | hji
      · rw [Function.update_same] at hj
        cases hj
      · rw [Function.update_noteq hji] at hj
        exact h.loadingUnloaded j hj
  | acquire i hpc hl =>
    refine ⟨?_, ?_⟩
    · intro j hj
      dsimp only at hj ⊢
      rcases eq_or_ne j i with rfl | hji
      · rfl
      · rw [Function.update_noteq hji] at hj
        have h1 := h.lockOwner j hj
        rw [hl] at h1
        cases h1
    · intro j hj
      dsimp only at hj ⊢
      rcases eq_or_ne j i with rfl | hji
      · rw [Function.update_same] at hj
        cases hj
      · rw [Function.update_noteq hji] at hj
        exact h.loadingUnloaded j hj
  | recheckLoaded i hpc hm =>
    refine ⟨?_, ?_⟩
    · intro j hj
      dsimp only at hj ⊢
      rcases eq_or_ne j i with rfl | hji
      · rw [Function.update_same] at hj
        rcases hj with h' | h' <;> cases h'
      · rw [Function.update_noteq hji] at hj
        have h1 := h.lockOwner j hj
        have h2 := h.lockOwner i (Or.inl hpc)
        rw [h2] at h1
        exact absurd (Option.some.inj h1).symm hji
    · intro j hj
      dsimp only at hj ⊢
      rcases eq_or_ne j i with rfl | hji
      · rw [Function.update_same] at hj
        cases hj
      · rw [Function.update_noteq hji] at hj
        exact h.loadingUnloaded j hj
  | beginLoad i hpc hm =>
    refine ⟨?_, ?_⟩
    · intro j hj
      dsimp only at hj ⊢
      rcases eq_or_ne j i with rfl | hji
      · exact h.lockOwner j (Or.inl hpc)
      · rw [Function.update_noteq hji] at hj
        exact h.lockOwner j hj
    · intro j hj
      dsimp only at hj ⊢
      rcases eq_or_ne j i with rfl | hji
      · exact hm
      · rw [Function.update_noteq hji] at hj
        exact h.loadingUnloaded j hj
  | loadOk i hpc hoc1 =>
    refine ⟨?_, ?_⟩
    · intro j hj
      dsimp only at hj ⊢
      rcases eq_or_ne j i with rfl | hji
      · rw [Function.update_same] at hj
        rcases hj with h' | h' <;> cases h'
      · rw [Function.update_noteq hji] at hj
        have h1 := h.lockOwner j hj
        have h2 := h.lockOwner i (Or.inr hpc)
        rw [h2] at h1
        exact absurd (Option.some.inj h1).symm hji
    · intro j hj
      dsimp only at hj ⊢
      rcases eq_or_ne j i with rfl | hji
      · rw [Function.update_same] at hj
        cases hj
      · rw [Function.update_noteq hji] at hj
        have h1 := h.lockOwner j (Or.inr hj)
        have h2 := h.lockOwner i (Or.inr hpc)
        rw [h2] at h1
        exact absurd (Option.some.inj h1).symm hji
  | loadFail i hpc hoc1 =>
    refine ⟨?_, ?_⟩
    · intro j hj
      dsimp only at hj ⊢
      rcases eq_or_ne j i with rfl | hji
      · rw [Function.update_same] at hj
        rcases hj with h' | h' <;> cases h'
      · rw [Function.update_noteq hji] at hj
        have h1 := h.lockOwner j hj
        have h2 := h.lockOwner i (Or.inr hpc)
        rw [h2] at h1
        exact absurd (Option.some.inj h1).symm hji
    · intro j _
      exact h.loadingUnloaded i hpc

lemma ginv_reach {n : ℕ} (oc : ℕ → Bool) {s : LState n}
    (h : Reach oc (initState n) s) : GInv s := by
  induction h with
  | refl => exact ginv_init n
  | tail _ hstep ih => exact ginv_step ih hstep

lemma sinv_loads_zero {n : ℕ} {s : LState n} (h : SInv s) {i : Fin n}
    (hpc : s.pc i = .locked) (hm : s.model = false) : s.loads = 0 := by
  by_contra hne
  have h1 : s.loads = 1 :=
    Nat.le_antisymm h.loadsBound (Nat.one_le_iff_ne_zero.mpr hne)
  rcases h.loadsIff.mp h1 with hm2 | ⟨j, hj⟩
  · rw [hm] at hm2
    cases hm2
  · have hl1 := h.lockOwner j (Or.inr hj)
    have hl2 := h.lockOwner i (Or.inl hpc)
    rw [hl2] at hl1
    have hij : i = j := Option.some.inj hl1
    subst hij
    rw [hpc] at hj
    cases hj

lemma update_loading_iff {n : ℕ} (pc : Fin n → LPC) (i : Fin n) (v : LPC)
    (hv : ¬ v = .loading) (hi : ¬ pc i = .loading) :
    (∃ j, Function.update pc i v j = .loading) ↔ (∃ j, pc j = .loading) := by
  constructor
  · rintro ⟨j, hj⟩
    rcases eq_or_ne j i with rfl | hji
    · rw [Function.update_same] at hj
      exact absurd hj hv
    · rw [Function.update_noteq hji] at hj
      exact ⟨j, hj⟩
  · rintro ⟨j, hj⟩
    rcases eq_or_ne j i with rfl | hji
    · exact absurd hj hi
    · exact ⟨j, by rw [Function.update_noteq hji]; exact hj⟩

lemma sinv_step {n : ℕ} {oc : ℕ → Bool} (hoc : ∀ k, oc k = true)
    {s t : LState n} (h : SInv s) (hs : Step oc s t) : SInv t := by
  have hg : GInv t := ginv_step ⟨h.lockOwner, h.loadingUnloaded⟩ hs
  refine ⟨hg.lockOwner, hg.loadingUnloaded, ?_, ?_, ?_⟩
  · cases hs with
    | checkLoaded i hpc hm => exact h.loadsBound
    | checkUnloaded i hpc hm => exact h.loadsBound
    | acquire i hpc hl => exact h.loadsBound
    | recheckLoaded i hpc hm => exact h.loadsBound
    | beginLoad i hpc hm =>
      have h0 := sinv_loads_zero h hpc hm
      show s.loads + 1 ≤ 1
      omega
    | loadOk i hpc hoc1 => exact h.loadsBound
    | loadFail i hpc hoc1 =>
      rw [hoc (s.loads - 1)] at hoc1
      cases hoc1
  · cases hs with
    | checkLoaded i hpc hm =>
      show s.loads = 1 ↔ _
      rw [update_loading_iff s.pc i .ret (by decide) (by rw [hpc]; decide)]
      exact h.loadsIff
    | checkUnloaded i hpc hm =>
      show s.loads = 1 ↔ _
      rw [update_loading_iff s.pc i .waitLock (by decide) (by rw [hpc]; decide)]
      exact h.loadsIff
    | acquire i hpc hl =>
      show s.loads = 1 ↔ _
      rw [update_loading_iff s.pc i .locked (by decide) (by rw [hpc]; decide)]
      exact h.loadsIff
    | recheckLoaded i hpc hm =>
      exact ⟨fun _ => Or.inl hm, fun _ => h.loadsIff.mpr (Or.inl hm)⟩
    | beginLoad i hpc hm =>
      have h0 := sinv_loads_zero h hpc hm
      constructor
      · intro _
        exact Or.inr ⟨i, Function.update_same i .loading s.pc⟩
      · intro _
        show s.loads + 1 = 1
        omega
    | loadOk i hpc hoc1 =>
      exact ⟨fun _ => Or.inl rfl, fun _ => h.loadsIff.mpr (Or.inr ⟨i, hpc⟩)⟩
    | loadFail i hpc hoc1 =>
      rw [hoc (s.loads - 1)] at hoc1
      cases hoc1
  · cases hs with
    | checkLoaded i hpc hm =>
      intro j hj
      dsimp only at hj ⊢
      exact hm
    | checkUnloaded i hpc hm =>
      intro j hj
      dsimp only at hj ⊢
      rcases eq_or_ne j i with rfl | hji
      · rw [Function.update_same] at hj
        cases hj
      · rw [Function.update_noteq hji] at hj
        exact h.retLoaded j hj
    | acquire i hpc hl =>
      intro j hj
      dsimp only at hj ⊢
      rcases eq_or_ne j i with rfl | hji
      · rw [Function.update_same] at hj
        cases hj
      · rw [Function.update_noteq hji] at hj
        exact h.retLoaded j hj
    | recheckLoaded i hpc hm =>
      intro j _
      exact hm
    | beginLoad i hpc hm =>
      intro j hj
      dsimp only at hj ⊢
      rcases eq_or_ne j i with rfl | hji
      · rw [Function.update_same] at hj
        cases hj
      · rw [Function.update_noteq hji] at hj
        exact h.retLoaded j hj
    | loadOk i hpc hoc1 =>
      intro j _
      rfl
    | loadFail i hpc hoc1 =>
      rw [hoc (s.loads - 1)] at hoc1
      cases hoc1

lemma sinv_init (n : ℕ) : SInv (initState n) := by
  refine ⟨(ginv_init n).lockOwner, (ginv_init n).loadingUnloaded, ?_, ?_, ?_⟩
  · exact Nat.zero_le 1
  · constructor
    · intro h0
      simp [initState] at h0
    · rintro (h0 | ⟨j, hj⟩)
      · simp [initState] at h0
      · simp [initState] at hj
  · intro j hj
    simp [initState] at hj

lemma sinv_reach {n : ℕ} {oc : ℕ → Bool} (hoc : ∀ k, oc k = true)
    {s : LState n} (h : Reach oc (initState n) s) : SInv s := by
  induction h with
  | refl => exact sinv_init n
  | tail _ hstep ih => exact sinv_step hoc ih hstep

/-- C3: under any interleaving of any number of concurrent `ensure_ready`
callers from the Unloaded state, when every caller has returned the
underlying load has been executed exactly once and the model handle is set
(every caller observes Ready). -/
theorem C3_concurrent_load_once (n : ℕ) (hn : 0 < n) (oc : ℕ → Bool)
    (hoc : ∀ k, oc k = true) (s : LState n) (hr : Reach oc (initState n) s)
    (hdone : ∀ i, s.pc i = .ret) : s.loads = 1 ∧ s.model = true := by
  have hinv := sinv_reach hoc hr
  have hm : s.model = true := hinv.retLoaded ⟨0, hn⟩ (hdone ⟨0, hn⟩)
  exact ⟨hinv.loadsIff.mpr (Or.inl hm), hm⟩

lemma step_cast {n : ℕ} {oc : ℕ → Bool} {s t t' : LState n}
    (h : Step oc s t) (he : t = t') : Step oc s t' := he ▸ h

lemma c3_reach : Reach (fun _ => true) (initState 1) c3Final := by
  refine Relation.ReflTransGen.head
    (step_cast (Step.checkUnloaded (initState 1) 0 rfl rfl)
      (LState.ext rfl rfl (by decide) rfl) :
      Step (fun _ => true) (initState 1) ⟨false, none, fun _ => .waitLock, 0⟩) ?_
  refine Relation.ReflTransGen.head
    (step_cast (Step.acquire ⟨false, none, fun _ => .waitLock, 0⟩ 0 rfl rfl)
      (LState.ext rfl rfl (by decide) rfl) :
      Step (fun _ => true) _ ⟨false, some 0, fun _ => .locked, 0⟩) ?_
  refine Relation.ReflTransGen.head
    (step_cast (Step.beginLoad ⟨false, some 0, fun _ => .locked, 0⟩ 0 rfl rfl)
      (LState.ext rfl rfl (by decide) rfl) :
      Step (fun _ => true) _ ⟨false, some 0, fun _ => .loading, 1⟩) ?_
  exact Relation.ReflTransGen.single
    (step_cast (Step.loadOk ⟨false, some 0, fun _ => .loading, 1⟩ 0 rfl rfl)
      (LState.ext rfl rfl (by decide) rfl))

/-- Witness for C3: the concrete single-caller trace ends all-returned with
exactly one load and the model set. -/
theorem C3_concurrent_load_once_witness : c3Final.loads = 1 ∧ c3Final.model = true :=
  C3_concurrent_load_once 1 (by decide) (fun _ => true) (fun _ => rfl) c3Final
    c3_reach (fun _ => rfl)

lemma c7_reach_s3 : Reach retryOracle (initState 2) c7s3 := by
  refine Relation.ReflTransGen.head
    (step_cast (Step.checkUnloaded (initState 2) 0 rfl rfl)
      (LState.ext rfl rfl (by decide) rfl) :
      Step retryOracle (initState 2)
        ⟨false, none, fun i => if i = 0 then .waitLock else .start, 0⟩) ?_
  refine Relation.ReflTransGen.head
    (step_cast
      (Step.acquire ⟨false, none, fun i => if i = 0 then .waitLock else .start, 0⟩
        0 (by decide) (by decide))
      (LState.ext rfl rfl (by decide) rfl) :
      Step retryOracle _
        ⟨false, some 0, fun i => if i = 0 then .locked else .start, 0⟩) ?_
  exact Relation.ReflTransGen.single
    (step_cast
      (Step.beginLoad ⟨false, some 0, fun i => if i = 0 then .locked else .start, 0⟩
        0 (by decide) (by decide))
      (LState.ext rfl rfl (by decide) rfl))

lemma c7_reach : Reach retryOracle (initState 2) c7Final := by
  refine Relation.ReflTransGen.trans c7_reach_s3 ?_
  refine Relation.ReflTransGen.head
    (step_cast (Step.loadFail c7s3 0 (by decide) (by decide))
      (LState.ext rfl rfl (by decide) rfl) :
      Step retryOracle c7s3
        ⟨false, none, fun i => if i = 0 then .failed else .start, 1⟩) ?_
  refine Relation.ReflTransGen.head
    (step_cast
      (Step.checkUnloaded ⟨false, none, fun i => if i = 0 then .failed else .start, 1⟩
        1 (by decide) (by decide))
      (LState.ext rfl rfl (by decide) rfl) :
      Step retryOracle _
        ⟨false, none, fun i => if i = 0 then .failed else .waitLock, 1⟩) ?_
  refine Relation.ReflTransGen.head
    (step_cast
      (Step.acquire ⟨false, none, fun i => if i = 0 then .failed else .waitLock, 1⟩
        1 (by decide) (by decide))
      (LState.ext rfl rfl (by decide) rfl) :
      Step retryOracle _
        ⟨false, some 1, fun i => if i = 0 then .failed else .locked, 1⟩) ?_
  refine Relation.ReflTransGen.head
    (step_cast
      (Step.beginLoad ⟨false, some 1, fun i => if i = 0 then .failed else .locked, 1⟩
        1 (by decide) (by decide))
      (LState.ext rfl rfl (by decide) rfl) :
      Step retryOracle _
        ⟨false, some 1, fun i => if i = 0 then .failed else .loading, 2⟩) ?_
  exact Relation.ReflTransGen.single
    (step_cast
      (Step.loadOk ⟨false, some 1, fun i => if i = 0 then .failed else .loading, 2⟩
        1 (by decide) (by decide))
      (LState.ext rfl rfl (by decide) rfl))

/-- C7: a failed load returns the gateway to Unloaded (the model handle stays
unset, the lock is released, the failure is not cached) and the triggering
caller surfaces the failure; and from the initial state a trace exists in
which the first load attempt fails and a subsequent caller re-attempts the
load and reaches Ready. -/
theorem C7_load_failure_not_cached :
    (∀ (n : ℕ) (oc : ℕ → Bool) (s : LState n), Reach oc (initState n) s →
      ∀ i : Fin n, s.pc i = .loading → oc (s.loads - 1) = false →
        Step oc s (failResult s i) ∧ (failResult s i).model = false ∧
        (failResult s i).lock = none ∧ (failResult s i).pc i = .failed) ∧
    (Reach retryOracle (initState 2) c7Final ∧ c7Final.pc 0 = .failed ∧
      c7Final.pc 1 = .ret ∧ c7Final.model = true ∧ c7Final.loads = 2) := by
  constructor
  · intro n oc s hr i hpc hfail
    have hg := ginv_reach oc hr
    refine ⟨Step.loadFail s i hpc hfail, ?_, rfl, ?_⟩
    · exact hg.loadingUnloaded i hpc
    · exact Function.update_same i .failed s.pc
  · exact ⟨c7_reach, rfl, rfl, rfl, rfl⟩

/-- Witness for C7: the failure step applied at the concrete reachable
loading state of the retry trace. -/
theorem C7_load_failure_not_cached_witness :
    Step retryOracle c7s3 (failResult c7s3 0) ∧ (failResult c7s3 0).model = false ∧
    (failResult c7s3 0).lock = none ∧ (failResult c7s3 0).pc 0 = .failed :=
  C7_load_failure_not_cached.1 2 retryOracle c7s3 c7_reach_s3 0 (by decide) (by decide)

/-! ### Artifact store lemmas (C4) -/

lemma dictGet_dictSet_same {α : Type} (l : List (Str × α)) (k : Str) (v : α) :
    dictGet (dictSet l k v) k = some v := by
  simp [dictGet, dictSet, List.find?]

lemma dictGet_filter_none {α : Type} (l : List (Str × α)) (q : Str × α → Bool)
    (k : Str) (h : dictGet l k = none) : dictGet (l.filter q) k = none := by
  unfold dictGet at h ⊢
  rw [Option.map_eq_none'] at h ⊢
  rw [List.find?_eq_none] at h ⊢
  intro x hx
  exact h x (List.mem_of_mem_filter hx)

lemma dictGet_dictDel {α : Type} (l : List (Str × α)) (k : Str) :
    dictGet (dictDel l k) k = none := by
  unfold dictGet dictDel
  rw [Option.map_eq_none', List.find?_eq_none]
  intro x hx
  rcases List.mem_filter.mp hx with ⟨_, hxk⟩
  simpa using hxk

lemma deleteAudio_metadata_none (s : AMState) (id : Str) :
    dictGet (deleteAudio s id).metadata id = none := by
  unfold deleteAudio
  cases hd : dictGet s.metadata id with
  | none => exact hd
  | some meta => exact dictGet_dictDel s.metadata id

lemma deleteAudio_preserves_none (s : AMState) (j id : Str)
    (h : dictGet s.metadata id = none) :
    dictGet (deleteAudio s j).metadata id = none := by
  unfold deleteAudio
  cases hd : dictGet s.metadata j with
  | none => exact h
  | some meta => exact dictGet_filter_none s.metadata _ id h

lemma foldl_deleteAudio_none (ids : List Str) :
    ∀ (s : AMState) (id : Str), dictGet s.metadata id = none →
      dictGet ((ids.foldl deleteAudio s).metadata) id = none := by
  induction ids with
  | nil => intro s id h; exact h
  | cons a rest ih =>
    intro s id h
    exact ih (deleteAudio s a) id (deleteAudio_preserves_none s a id h)

lemma foldl_deleteAudio_mem (ids : List Str) :
    ∀ (s : AMState) (id : Str), id ∈ ids →
      dictGet ((ids.foldl deleteAudio s).metadata) id = none := by
  induction ids with
  | nil => intro s id h; simp at h
  | cons a rest ih =>
    intro s id hid
    rcases List.mem_cons.mp hid with rfl | hid
    · exact foldl_deleteAudio_none rest (deleteAudio s id) id
        (deleteAudio_metadata_none s id)
    · exact ih (deleteAudio s a) id hid

lemma expired_fetch_spec (s : AMState) (now : ℚ) (id : Str) (meta : AudioMeta)
    (hmeta : dictGet s.metadata id = some meta) (hexp : meta.expiresAt < now) :
    (getAudioPath s now id).1 = none ∧
    dictGet ((getAudioPath s now id).2).metadata id = none ∧
    dictGet ((getAudioPath s now id).2).files meta.filename = none ∧
    (getAudioInfo s now id).1 = none ∧
    dictGet ((getAudioInfo s now id).2).metadata id = none := by
  unfold getAudioPath getAudioInfo
  rw [hmeta]
  dsimp only
  simp only [if_pos hexp]
  refine ⟨trivial, ?_, ?_, trivial, ?_⟩
  · exact deleteAudio_metadata_none s id
  · unfold deleteAudio
    rw [hmeta]
    exact dictGet_dictDel s.files meta.filename
  · exact deleteAudio_metadata_none s id

/-- C4: an artifact whose `expires_at` lies strictly in the past is treated
as absent by both `fetch` and `info`, which also delete its file and
metadata entry; an artifact saved with an effective ttl of 0 (so
`expires_at = created_at`) is absent on any strictly later fetch, and
`sweep` counts it among the removed entries and removes it. -/
theorem C4_expiry_reclamation :
    (∀ (s : AMState) (now : ℚ) (id : Str) (meta : AudioMeta),
      dictGet s.metadata id = some meta → meta.expiresAt < now →
      (getAudioPath s now id).1 = none ∧
      dictGet ((getAudioPath s now id).2).metadata id = none ∧
      dictGet ((getAudioPath s now id).2).files meta.filename = none ∧
      (getAudioInfo s now id).1 = none ∧
      dictGet ((getAudioInfo s now id).2).metadata id = none) ∧
    (∀ (s : AMState) (t t' : ℚ) (id : Str) (data : Bytes) (fmt : Str)
      (sr : ℕ) (dur : ℚ), s.expireHours = 0 → t < t' →
      (getAudioPath (saveAudio s t id data fmt sr dur).2 t' id).1 = none ∧
      dictGet ((getAudioPath (saveAudio s t id data fmt sr dur).2 t' id).2).metadata
        id = none ∧
      id ∈ expiredIds (saveAudio s t id data fmt sr dur).2 t' ∧
      (cleanupExpired (saveAudio s t id data fmt sr dur).2 t').1 =
        (expiredIds (saveAudio s t id data fmt sr dur).2 t').length ∧
      dictGet ((cleanupExpired (saveAudio s t id data fmt sr dur).2 t').2).metadata
        id = none) := by
  constructor
  · exact fun s now id meta hmeta hexp => expired_fetch_spec s now id meta hmeta hexp
  · intro s t t' id data fmt sr dur hzero ht
    have hmeta : dictGet (saveAudio s t id data fmt sr dur).2.metadata id =
        some ⟨id, id ++ ('.' :: fmt), fmt, sr, dur, t, t + s.expireHours⟩ :=
      dictGet_dictSet_same _ _ _
    have hexp : (⟨id, id ++ ('.' :: fmt), fmt, sr, dur, t,
        t + s.expireHours⟩ : AudioMeta).expiresAt < t' := by
      show t + s.expireHours < t'
      rw [hzero, add_zero]
      exact ht
    have hspec := expired_fetch_spec _ t' id _ hmeta hexp
    have hmem : id ∈ expiredIds (saveAudio s t id data fmt sr dur).2 t' := by
      unfold expiredIds
      refine List.mem_map.mpr
        ⟨(id, ⟨id, id ++ ('.' :: fmt), fmt, sr, dur, t, t + s.expireHours⟩), ?_, rfl⟩
      refine List.mem_filter.mpr ⟨?_, ?_⟩
      · show _ ∈ dictSet s.metadata id _
        exact List.mem_cons_self _ _
      · simpa using hexp
    exact ⟨hspec.1, hspec.2.1, hmem, rfl,
      foldl_deleteAudio_mem _ _ id hmem⟩

/-- Witness for C4: a manager with effective ttl 0, saving at time 0 and
fetching/sweeping at time 1. -/
theorem C4_expiry_reclamation_witness :
    (getAudioPath (saveAudio (initManager (some 0) 0) 0 (("a1").toList) [1, 2]
        (("wav").toList) 16000 2).2 1 (("a1").toList)).1 = none ∧
    dictGet ((getAudioPath (saveAudio (initManager (some 0) 0) 0 (("a1").toList)
        [1, 2] (("wav").toList) 16000 2).2 1 (("a1").toList)).2).metadata
      (("a1").toList) = none ∧
    ("a1").toList ∈ expiredIds (saveAudio (initManager (some 0) 0) 0
      (("a1").toList) [1, 2] (("wav").toList) 16000 2).2 1 ∧
    (cleanupExpired (saveAudio (initManager (some 0) 0) 0 (("a1").toList) [1, 2]
        (("wav").toList) 16000 2).2 1).1 =
      (expiredIds (saveAudio (initManager (some 0) 0) 0 (("a1").toList) [1, 2]
        (("wav").toList) 16000 2).2 1).length ∧
    dictGet ((cleanupExpired (saveAudio (initManager (some 0) 0) 0
        (("a1").toList) [1, 2] (("wav").toList) 16000 2).2 1).2).metadata
      (("a1").toList) = none :=
  C4_expiry_reclamation.2 (initManager (some 0) 0) 0 1 (("a1").toList) [1, 2]
    (("wav").toList) 16000 2 (by decide) (by norm_num)

end VoxCPM
